import Mathlib

/-!
# CodeGuard — verification of the evidence-gathering and scoring pipeline

Shallow embedding of the analysis pipeline of the CodeGuard repository:
`src/routes/reports.js` (analyzeFile / aggregateSources / getRiskLevel and the
`/analyze` submission loop), `src/services/searchService.js` (normalization,
similarity, web and Stack Overflow search), `src/services/githubService.js`
(code search) and `src/services/aiDetection.js` (AI-likelihood scoring).

Numeric values are modelled as rationals (`ℚ`).  External network calls
(search transports, the generative-model collaborator) are modelled as oracle
parameters that may fail, mirroring the `try/catch` structure of the source.
The regex-based text statistics inside the AI heuristics and the snippet
extractor are abstracted as parameters: no claim depends on their output, and
every theorem below quantifies over all of their possible results.
-/

namespace CodeGuard

/-! ## SimilarityScorer: `searchService.calculateSimilarity`

`calculateSimilarity` normalizes both texts (lowercase, replace every
non-word, non-whitespace character by a space, collapse whitespace runs,
trim) and then delegates to `compareTwoStrings` of the `string-similarity`
dependency.  Modelled from the spec: `compareTwoStrings` is not part of this
repository's sources; per spec §4.2 it is the Dice coefficient over character
bigrams after whitespace removal, returning 1 on identical strings and 0 when
either stripped string has fewer than 2 characters. -/

/-- JS regex `\w` on ASCII: letters, digits, underscore. -/
def jsIsWordChar (c : Char) : Bool := c.isAlphanum || c == '_'

/-- JS regex `\s` (ASCII part): space, tab, newline, carriage return,
vertical tab, form feed. -/
def jsIsSpace (c : Char) : Bool :=
  c == ' ' || c == '\t' || c == '\n' || c == '\r' || c == '\x0b' || c == '\x0c'

/-- `.replace(/[^\w\s]/g, ' ')`: every character that is neither a word
character nor whitespace becomes a single space. -/
def replaceSpecials (cs : List Char) : List Char :=
  cs.map fun c => if jsIsWordChar c || jsIsSpace c then c else ' '

/-- `.replace(/\s+/g, ' ')`: collapse each maximal whitespace run to one
space. -/
def collapseWs : List Char → List Char
  | [] => []
  | [c] => if jsIsSpace c then [' '] else [c]
  | c :: c' :: rest =>
    if jsIsSpace c && jsIsSpace c' then collapseWs (c' :: rest)
    else (if jsIsSpace c then ' ' else c) :: collapseWs (c' :: rest)

/-- `.trim()`: strip leading and trailing whitespace. -/
def jsTrim (cs : List Char) : List Char :=
  ((cs.dropWhile jsIsSpace).reverse.dropWhile jsIsSpace).reverse

/-- The `normalizeText` closure inside `calculateSimilarity`
(`searchService.js` lines 155-161): lowercase, strip special characters,
normalize whitespace, trim. -/
def normalizeText (s : String) : String :=
  ⟨jsTrim (collapseWs (replaceSpecials (s.toList.map Char.toLower)))⟩

/-- `first.replace(/\s+/g, '')`: remove all whitespace. -/
def stripWs (cs : List Char) : List Char := cs.filter (fun c => !jsIsSpace c)

/-- Adjacent character pairs, in order (`substring(i, i + 2)` for each `i`). -/
def bigrams : List Char → List (Char × Char)
  | a :: b :: rest => (a, b) :: bigrams (b :: rest)
  | _ => []

/-- The `intersectionSize` loop of `compareTwoStrings`: walk the bigrams of
`second`, and for each one that is still available in the (multiset of)
bigrams of `first`, consume one occurrence and count it. -/
def consumeCount {α : Type} [DecidableEq α] : List α → List α → ℕ
  | [], _ => 0
  | b :: rest, avail =>
    if b ∈ avail then 1 + consumeCount rest (avail.erase b)
    else consumeCount rest avail

/-- Modelled from the spec: `compareTwoStrings` of the `string-similarity`
dependency (spec §4.2, Dice coefficient over character bigrams).  Both
strings are stripped of whitespace; identical strings (including two empty
ones) give `1`; a stripped string of fewer than 2 characters gives `0`;
otherwise `2 * intersectionSize / (first.length + second.length - 2)`. -/
def compareTwoStrings (s1 s2 : String) : ℚ :=
  if stripWs s1.toList = stripWs s2.toList then 1
  else if (stripWs s1.toList).length < 2 ∨ (stripWs s2.toList).length < 2 then 0
  else (2 * ((consumeCount (bigrams (stripWs s2.toList)) (bigrams (stripWs s1.toList))) : ℚ)) /
    (((stripWs s1.toList).length : ℚ) + ((stripWs s2.toList).length : ℚ) - 2)

/-- `searchService.calculateSimilarity` (lines 153-168): normalize both texts
then compare. -/
def calculateSimilarity (text1 text2 : String) : ℚ :=
  compareTwoStrings (normalizeText text1) (normalizeText text2)

/-! ## Risk tiers: `getRiskLevel` (`reports.js` lines 492-498) -/

/-- `getRiskLevel`: five-level bucket from a similarity score. -/
def getRiskLevel (similarity : ℚ) : String :=
  if similarity ≥ 9/10 then "critical"
  else if similarity ≥ 7/10 then "high"
  else if similarity ≥ 5/10 then "medium"
  else if similarity ≥ 3/10 then "low"
  else "minimal"

/-! ## Data model of the analysis pipeline (`reports.js` analyze route) -/

/-- The three evidence-source kinds used as the `source` tag on matches
(`'github'`, `'stackoverflow'`, `'web'`). -/
inductive SourceKind where
  | github
  | stackoverflow
  | web
deriving DecidableEq, Repr

/-- The string written into the `source` field of a match. -/
def SourceKind.str : SourceKind → String
  | .github => "github"
  | .stackoverflow => "stackoverflow"
  | .web => "web"

/-- A candidate as returned by one of the search services, before
`analyzeFile` tags it.  Only the fields consumed downstream (`title`,
`link`, `snippet`) are modelled; the repository-host variant leaves `title`,
`link` and `snippet` absent in the source (JS `undefined`), rendered here as
arbitrary strings supplied by the environment. -/
structure RawCandidate where
  title : String
  link : String
  snippet : String
deriving DecidableEq, Repr

/-- A candidate after the per-source `map` in `analyzeFile` (lines 373-405):
`{...match, source, snippet: snippet}` — the `source` tag is set and the
`snippet` field is overwritten with the originating code unit. -/
structure TaggedCandidate where
  title : String
  link : String
  source : SourceKind
  snippet : String
deriving DecidableEq, Repr

/-- A retained match (`reports.js` lines 416-420): the tagged candidate plus
`similarity` and `risk`. -/
structure Match where
  title : String
  link : String
  source : SourceKind
  snippet : String
  similarity : ℚ
  risk : String
deriving DecidableEq, Repr

/-- The slice of the AI-detection result consumed by `analyzeFile`
(`aiProbability`; the rest of the result is not read by the analysis
route). -/
structure AIResult where
  aiProbability : ℚ
deriving DecidableEq, Repr

/-- One file of the submission (`{filename, content, language}`). -/
structure FileInput where
  filename : String
  content : String
  language : String
deriving DecidableEq, Repr

/-- The per-file analysis result (`reports.js` lines 340-349).  The field
`matchList` models the source's `matches` field (`matches` is reserved in
Lean). -/
structure FileResult where
  filename : String
  language : String
  size : ℕ
  plagiarismScore : ℚ
  aiGeneratedScore : ℚ
  matchList : List Match
  aiAnalysis : Option AIResult
  error : Option String
deriving DecidableEq, Repr

/-- The analysis options destructured at the top of `analyzeFile`
(lines 332-338), with their source defaults. -/
structure Options where
  searchGitHub : Bool := true
  searchStackOverflow : Bool := true
  searchWeb : Bool := true
  detectAI : Bool := true
  similarityThreshold : ℚ := 3/10
deriving DecidableEq, Repr

/-- The environment of collaborator calls made by `analyzeFile`.  Each
external call is an oracle that may fail (`Except`), mirroring the
`try`/`catch` structure of the source; `extractSnippets` stands for
`searchService.extractSearchSnippets`, whose regex-based output is
abstracted — every theorem quantifies over all of its possible results. -/
structure Env where
  detectAI : String → String → Except String AIResult
  githubSearch : String → String → Except String (List RawCandidate)
  soSearch : String → String → Except String (List RawCandidate)
  webSearch : String → String → Except String (List RawCandidate)
  extractSnippets : String → List String

/-- The per-source `map` tagging a raw candidate (`{...match, source,
snippet: snippet}`). -/
def tagCandidate (src : SourceKind) (snippet : String) (c : RawCandidate) : TaggedCandidate :=
  { title := c.title, link := c.link, source := src, snippet := snippet }

/-- One evidence source's contribution for one snippet: nothing when the
source is disabled, nothing when its call failed (the inner `catch` logs a
warning and moves on), otherwise the tagged results. -/
def sourceChunk (enabled : Bool) (res : Except String (List RawCandidate)) (src : SourceKind)
    (snippet : String) : List TaggedCandidate :=
  if enabled then
    match res with
    | .ok ms => ms.map (tagCandidate src snippet)
    | .error _ => []
  else []

/-- The `matches` list collected for one snippet (`reports.js` lines
367-409): GitHub, then Stack Overflow, then web, each guarded by its option
flag and by an inner `try`/`catch` that turns a failure into no
contribution. -/
def collectCandidates (env : Env) (opts : Options) (language snippet : String) :
    List TaggedCandidate :=
  sourceChunk opts.searchGitHub (env.githubSearch snippet language) .github snippet ++
  sourceChunk opts.searchStackOverflow (env.soSearch snippet language) .stackoverflow snippet ++
  sourceChunk opts.searchWeb (env.webSearch snippet language) .web snippet

/-- The body of the similarity loop for one candidate (`reports.js` lines
412-423): a candidate with a truthy (non-empty) `snippet` field is scored
against the snippet; strictly above the threshold it becomes a match
carrying the computed risk level, otherwise it is dropped. -/
def mkMatch (opts : Options) (snippet : String) (c : TaggedCandidate) : Option Match :=
  if c.snippet ≠ "" then
    let similarity := calculateSimilarity snippet c.snippet
    if similarity > opts.similarityThreshold then
      some { title := c.title, link := c.link, source := c.source, snippet := c.snippet,
             similarity := similarity, risk := getRiskLevel similarity }
    else none
  else none

/-- The similarity-scoring loop over one snippet's candidates. -/
def scoreCandidates (opts : Options) (snippet : String) (cands : List TaggedCandidate) :
    List Match :=
  cands.filterMap (mkMatch opts snippet)

/-- All matches collected across the snippets of one file, in push order. -/
def allMatches (env : Env) (opts : Options) (language content : String) : List Match :=
  (env.extractSnippets content).flatMap fun snippet =>
    scoreCandidates opts snippet (collectCandidates env opts language snippet)

/-! ### The JS sort (`allMatches.sort((a, b) => b.similarity - a.similarity)`)

`Array.prototype.sort` is stable; with this comparator it orders by
similarity descending, ties kept in insertion order.  Modelled as a stable
insertion sort parameterized by the sort key. -/

/-- Stable descending insert: walk past elements with strictly greater key;
place the new element before the first element whose key is not greater. -/
def insertDesc {α : Type} (key : α → ℚ) (x : α) : List α → List α
  | [] => [x]
  | h :: t => if key h > key x then h :: insertDesc key x t else x :: h :: t

/-- Stable sort by a rational key, descending. -/
def sortDesc {α : Type} (key : α → ℚ) : List α → List α
  | [] => []
  | h :: t => insertDesc key h (sortDesc key t)

/-- The tie-breaking order on position-annotated elements: strictly larger
key first, and among equal keys the element that was earlier in the input
(smaller index) first. -/
def lexAfter {α : Type} (key : α → ℚ) (a b : ℕ × α) : Prop :=
  key b.2 < key a.2 ∨ (key a.2 = key b.2 ∧ a.1 < b.1)


/-- `Math.max(...result.matches.map(m => m.similarity))` over a non-empty
list (`reports.js` line 431). -/
def maxSimilarity : List Match → ℚ
  | [] => 0
  | h :: t => t.foldl (fun acc m => max acc m.similarity) h.similarity

/-- `result.matches.reduce((sum, m) => sum + m.similarity, 0)` (line 432). -/
def sumSimilarity (ms : List Match) : ℚ :=
  ms.foldl (fun acc m => acc + m.similarity) 0

/-- The initial `result` object of `analyzeFile` (lines 340-349). -/
def initResult (file : FileInput) : FileResult :=
  { filename := file.filename, language := file.language, size := file.content.length,
    plagiarismScore := 0, aiGeneratedScore := 0, matchList := [], aiAnalysis := none,
    error := none }

/-- The rest of the `try` body of `analyzeFile` once the AI-detection step
has produced `ai` (lines 351-434): record the AI analysis, collect and score
candidates per snippet, sort the retained matches by similarity descending,
and compute the plagiarism score when any match was retained. -/
def analyzeFileOk (env : Env) (file : FileInput) (opts : Options) (ai : AIResult) : FileResult :=
  let r1 := if opts.detectAI then
      { initResult file with aiAnalysis := some ai, aiGeneratedScore := ai.aiProbability }
    else initResult file
  let sorted := sortDesc (fun m => m.similarity) (allMatches env opts file.language file.content)
  let r2 := { r1 with matchList := sorted }
  if sorted.length > 0 then
    { r2 with plagiarismScore :=
        maxSimilarity sorted * (7/10) + (sumSimilarity sorted / sorted.length) * (3/10) }
  else r2

/-- `analyzeFile` (`reports.js` lines 331-442).  The AI-detection step is the
only point of the `try` body whose failure can reach the outer `catch` (each
evidence search is wrapped in its own inner `try`/`catch`, and the remaining
steps are pure); on such a failure the partially built result — still
holding its initial scores — gets its `error` field set and is returned. -/
def analyzeFile (env : Env) (file : FileInput) (opts : Options) : FileResult :=
  match (if opts.detectAI then env.detectAI file.content file.language
         else .ok { aiProbability := 0 }) with
  | .error e => { initResult file with error := some e }
  | .ok ai => analyzeFileOk env file opts ai

/-! ## AI detection (`src/services/aiDetection.js`)

The five pattern heuristics and the statistical line counts are regex-based
text statistics; their numeric outputs are abstracted into `HeurEnv` (spec
§1 explicitly summarizes rather than specifies them), and every theorem
quantifies over all of their possible values.  All score arithmetic —
guards, weights, `Math.min` caps, the weighted combination — follows the
source. -/

/-- The abstracted outputs of the regex-based text statistics consumed by
`analyzeAIPatterns` and `statisticalAnalysis` for one invocation. -/
structure HeurEnv where
  commentRatio : ℚ
  formattingScore : ℚ
  genericNamesScore : ℚ
  overEngineeringScore : ℚ
  personalStyleScore : ℚ
  statCommentRatio : ℚ
  statFunctionDensity : ℚ
  statVariableDensity : ℚ
  statTotalLines : ℕ
  statClassCount : ℕ
deriving DecidableEq, Repr

/-- The slice of `analyzeAIPatterns`' result consumed downstream. -/
structure PatternAnalysis where
  aiScore : ℚ
  totalPatterns : ℕ
deriving DecidableEq, Repr

/-- `analyzeAIPatterns` (lines 56-125): each heuristic adds its weighted
contribution only when its guard fires, and the total is capped at 1 by
`Math.min(aiScore, 1)`. -/
def analyzeAIPatterns (h : HeurEnv) : PatternAnalysis :=
  let s1 : ℚ := if h.commentRatio > 3/10 then h.commentRatio * (3/10) else 0
  let s2 : ℚ := if h.formattingScore > 8/10 then h.formattingScore * (2/10) else 0
  let s3 : ℚ := if h.genericNamesScore > 6/10 then h.genericNamesScore * (25/100) else 0
  let s4 : ℚ := if h.overEngineeringScore > 7/10 then h.overEngineeringScore * (3/10) else 0
  let s5 : ℚ := if h.personalStyleScore < 3/10 then (1 - h.personalStyleScore) * (2/10) else 0
  let n1 : ℕ := if h.commentRatio > 3/10 then 1 else 0
  let n2 : ℕ := if h.formattingScore > 8/10 then 1 else 0
  let n3 : ℕ := if h.genericNamesScore > 6/10 then 1 else 0
  let n4 : ℕ := if h.overEngineeringScore > 7/10 then 1 else 0
  let n5 : ℕ := if h.personalStyleScore < 3/10 then 1 else 0
  { aiScore := min (s1 + s2 + s3 + s4 + s5) 1, totalPatterns := n1 + n2 + n3 + n4 + n5 }

/-- `statisticalAnalysis` (lines 179-241): five 0.2-increments behind
threshold guards, capped at 1 by `Math.min(aiScore, 1)`. -/
def statisticalAiScore (h : HeurEnv) : ℚ :=
  min ((if h.statCommentRatio > 2/10 then (2/10 : ℚ) else 0) +
       (if h.statFunctionDensity > 5/100 ∧ h.statFunctionDensity < 15/100 then (2/10 : ℚ)
        else 0) +
       (if h.statVariableDensity > 1/10 then (2/10 : ℚ) else 0) +
       (if h.statTotalLines > 50 then (2/10 : ℚ) else 0) +
       (if h.statClassCount > 0 then (2/10 : ℚ) else 0)) 1

/-- The outcome of the generative-model call as seen by `openaiAnalysis`
(lines 127-177): the model may be unconfigured, the call may fail, the
response may parse as JSON (whose `aiProbability` field may be absent), or
JSON parsing may fail, in which case the first number matched by
`/(\d+\.?\d*)/` in the free text (if any) is recovered. -/
inductive GeminiResponse where
  | unconfigured
  | failure (msg : String)
  | parsedJson (aiProbability : Option ℚ) (reasoning : Option String)
  | unparsed (firstNumber : Option ℚ)
deriving DecidableEq, Repr

/-- The `aiProbability` produced by `openaiAnalysis`: `parsedResult.aiProbability
|| 0` on the JSON path, `parseFloat(match)/100` (0 when no number matched) on
the free-text path, 0 when unconfigured or failed.  No branch clamps. -/
def openaiProbability : GeminiResponse → ℚ
  | .unconfigured => 0
  | .failure _ => 0
  | .parsedJson p _ => p.getD 0
  | .unparsed num => num.getD 0 / 100

/-- The slice of `detectAIGeneratedCode`'s result consumed downstream. -/
structure AIDetectionResult where
  aiProbability : ℚ
  confidence : ℚ
deriving DecidableEq, Repr

/-- `calculateConfidence` (lines 375-397). -/
def calculateConfidence (pattern : PatternAnalysis) (openaiProb statScore : ℚ) : ℚ :=
  let c1 : ℚ := if pattern.totalPatterns > 0 then (pattern.totalPatterns : ℚ) * (1/10) else 0
  let c2 : ℚ := if openaiProb > 0 then (3/10 : ℚ) else 0
  let c3 : ℚ := if statScore > 0 then (2/10 : ℚ) else 0
  let factors : ℕ := (if pattern.totalPatterns > 0 then 1 else 0) +
    (if openaiProb > 0 then 1 else 0) + (if statScore > 0 then 1 else 0)
  if factors > 0 then min ((c1 + c2 + c3) / (factors : ℚ)) 1 else 0

/-- `detectAIGeneratedCode` (lines 11-54): the weighted combination
`pattern*0.4 + modelOpinion*0.4 + statistical*0.2`, with no clamp applied to
the sum. -/
def detectAIGeneratedCode (h : HeurEnv) (g : GeminiResponse) : AIDetectionResult :=
  let pattern := analyzeAIPatterns h
  let openaiScore := openaiProbability g
  let statScore := statisticalAiScore h
  { aiProbability := pattern.aiScore * (4/10) + openaiScore * (4/10) + statScore * (2/10),
    confidence := calculateConfidence pattern openaiScore statScore }

/-! ## Source aggregation (`aggregateSources`, `reports.js` lines 445-489) -/

/-- One deduplicated source entry of the submission result. -/
structure SourceAgg where
  source : SourceKind
  title : String
  link : String
  files : List String
  maxSimilarity : ℚ
  totalMatches : ℕ
deriving DecidableEq, Repr

/-- The three per-kind source buckets of the submission result. -/
structure Sources where
  github : List SourceAgg
  stackoverflow : List SourceAgg
  web : List SourceAgg
deriving DecidableEq, Repr

/-- The string key `` `${match.source}-${match.link}` `` of the source map. -/
def aggKey (m : Match) : String := m.source.str ++ "-" ++ m.link

/-- Lookup in the insertion-ordered association list modelling the JS `Map`
(first entry with the key wins; keys are in fact unique). -/
def mapGet : List (String × SourceAgg) → String → Option SourceAgg
  | [], _ => none
  | p :: rest, k => if p.1 = k then some p.2 else mapGet rest k

/-- In-place update of one key's value, preserving insertion order. -/
def mapUpdate (sm : List (String × SourceAgg)) (k : String) (f : SourceAgg → SourceAgg) :
    List (String × SourceAgg) :=
  sm.map fun p => if p.1 = k then (p.1, f p.2) else p

/-- The fresh entry created on first sight of a match's key (lines
459-467). -/
def aggInit (m : Match) : SourceAgg :=
  { source := m.source, title := m.title, link := m.link, files := [],
    maxSimilarity := 0, totalMatches := 0 }

/-- The mutation applied to a key's entry for one citing match (lines
469-472): push the filename, update the running max similarity, bump the
match count. -/
def aggUpdate (filename : String) (m : Match) (s : SourceAgg) : SourceAgg :=
  { s with files := s.files ++ [filename],
           maxSimilarity := max s.maxSimilarity m.similarity,
           totalMatches := s.totalMatches + 1 }

/-- Processing one match of one file (the inner `forEach` body, lines
455-473): create the entry on first sight of its key, then apply the
per-match mutation. -/
def aggStep (filename : String) (sm : List (String × SourceAgg)) (m : Match) :
    List (String × SourceAgg) :=
  let key := aggKey m
  let sm1 := if (mapGet sm key).isSome then sm else sm ++ [(key, aggInit m)]
  mapUpdate sm1 key (aggUpdate filename m)

/-- The full source map built over all files' matches in order. -/
def buildSourceMap (files : List FileResult) : List (String × SourceAgg) :=
  files.foldl (fun sm f => f.matchList.foldl (aggStep f.filename) sm) []

/-- `aggregateSources`: distribute the map's entries (in insertion order)
into the per-kind buckets, then sort each bucket by max similarity
descending. -/
def aggregateSources (files : List FileResult) : Sources :=
  let entries := (buildSourceMap files).map Prod.snd
  { github := sortDesc (fun s => s.maxSimilarity)
      (entries.filter fun s => s.source == SourceKind.github),
    stackoverflow := sortDesc (fun s => s.maxSimilarity)
      (entries.filter fun s => s.source == SourceKind.stackoverflow),
    web := sortDesc (fun s => s.maxSimilarity)
      (entries.filter fun s => s.source == SourceKind.web) }

/-! ## The submission loop (`POST /analyze`, `reports.js` lines 220-289) -/

/-- One entry of `summary.highRiskFiles`. -/
structure HighRiskEntry where
  filename : String
  score : ℚ
  reason : String
deriving DecidableEq, Repr

/-- The submission summary. -/
structure Summary where
  plagiarismScore : ℚ
  aiGeneratedScore : ℚ
  totalMatches : ℕ
  highRiskFiles : List HighRiskEntry
deriving DecidableEq, Repr

/-- The submission result (`analysisId` and `timestamp` are nondeterministic
identifiers, not modelled). -/
structure SubmissionResult where
  totalFiles : ℕ
  summary : Summary
  files : List FileResult
  sources : Sources
deriving DecidableEq, Repr

/-- One iteration of the per-file loop of the `/analyze` route (lines
250-266): analyze the file, push its result, update the high-risk list
(files with plagiarism score strictly above 0.7) and the running match
total. -/
def analyzeStep (env : Env) (opts : Options)
    (acc : List FileResult × List HighRiskEntry × ℕ) (file : FileInput) :
    List FileResult × List HighRiskEntry × ℕ :=
  let fileResult := analyzeFile env file opts
  (acc.1 ++ [fileResult],
   (if fileResult.plagiarismScore > 7/10 then
      acc.2.1 ++ [{ filename := file.filename, score := fileResult.plagiarismScore,
                    reason := "High plagiarism detected" }]
    else acc.2.1),
   acc.2.2 + fileResult.matchList.length)

/-- The `/analyze` route: run the per-file loop, then compute the mean
scores (lines 269-273) and aggregate the sources. -/
def analyze (env : Env) (opts : Options) (codeFiles : List FileInput) : SubmissionResult :=
  let acc := codeFiles.foldl (analyzeStep env opts) ([], [], 0)
  let totalPlagiarismScore := acc.1.foldl (fun s f => s + f.plagiarismScore) 0
  let totalAIScore := acc.1.foldl (fun s f => s + f.aiGeneratedScore) 0
  { totalFiles := codeFiles.length,
    summary := { plagiarismScore := totalPlagiarismScore / (acc.1.length : ℚ),
                 aiGeneratedScore := totalAIScore / (acc.1.length : ℚ),
                 totalMatches := acc.2.2, highRiskFiles := acc.2.1 },
    files := acc.1,
    sources := aggregateSources acc.1 }

/-! ## Evidence-source services (`searchService.js`, `githubService.js`)

Each service wraps its whole body in `try`/`catch` and returns `[]` from the
`catch`; the network transports are oracles that may fail. -/

/-- One organic result of the general-web search API. -/
structure WebItem where
  title : String
  link : String
  snippet : String
deriving DecidableEq, Repr

/-- Outcome of the SerpAPI request: transport/auth/rate-limit failure, or a
response whose `organic_results` field may be absent. -/
inductive WebTransport where
  | failure (msg : String)
  | ok (organicResults : Option (List WebItem))
deriving DecidableEq, Repr

/-- `searchService.searchWeb` (lines 10-46): return `[]` when the SerpAPI key
is not configured; append the language annotation to the query; map organic
results; any failure is caught and yields `[]`. -/
def searchWebService (serpApiKey : Option String) (transport : String → WebTransport)
    (query language : String) : List RawCandidate :=
  if serpApiKey.isNone then []
  else
    let searchQuery := if language ≠ "" then query ++ " " ++ language ++ " code" else query
    match transport searchQuery with
    | .failure _ => []
    | .ok none => []
    | .ok (some items) =>
      items.map fun i => { title := i.title, link := i.link, snippet := i.snippet }

/-- One question of the Stack Exchange search response. -/
structure SOQuestion where
  questionId : ℕ
  title : String
  link : String
  answerCount : ℕ
deriving DecidableEq, Repr

/-- One answer of the Stack Exchange answers response. -/
structure SOAnswer where
  body : String
  score : ℤ
deriving DecidableEq, Repr

/-- Outcome of the question-search request. -/
inductive SOSearchTransport where
  | failure (msg : String)
  | ok (items : Option (List SOQuestion))
deriving DecidableEq, Repr

/-- Outcome of one answers request. -/
inductive SOAnswerTransport where
  | failure (msg : String)
  | ok (items : List SOAnswer)
deriving DecidableEq, Repr

/-- The per-question body of the Stack Overflow loop (lines 71-97): for a
question with answers, fetch its top answer and extract code from its body
(`extractCodeFromAnswer` is regex-based markup scanning, abstracted as a
parameter); a failing answer fetch aborts to the surrounding `catch`. -/
def soStep (answerTransport : ℕ → String → SOAnswerTransport) (extractCode : String → String)
    (keyParam : String) (acc : List RawCandidate) (q : SOQuestion) :
    Except String (List RawCandidate) :=
  if q.answerCount > 0 then
    match answerTransport q.questionId keyParam with
    | .failure e => throw e
    | .ok answers =>
      match answers.head? with
      | some answer =>
        pure (acc ++ [{ title := q.title, link := q.link,
                        snippet := extractCode answer.body : RawCandidate }])
      | none => pure acc
  else pure acc

/-- The `try` body of `searchService.searchStackOverflow` (lines 48-107):
annotate the query with the language tag, search questions (with the
configured key or `'anonymous'`), then run the per-question loop. -/
def searchStackOverflowTry (stackOverflowApiKey : Option String)
    (questionTransport : String → String → SOSearchTransport)
    (answerTransport : ℕ → String → SOAnswerTransport) (extractCode : String → String)
    (query language : String) : Except String (List RawCandidate) :=
  let searchQuery := if language ≠ "" then query ++ " [" ++ language ++ "]" else query
  let keyParam := stackOverflowApiKey.getD "anonymous"
  match questionTransport searchQuery keyParam with
  | .failure e => throw e
  | .ok none => pure []
  | .ok (some questions) =>
    questions.foldlM (soStep answerTransport extractCode keyParam) []

/-- `searchService.searchStackOverflow`: the `try` body with its `catch`
returning `[]`.  Note there is no credential check: without a key the request
is still issued, with `key: 'anonymous'`. -/
def searchStackOverflowService (stackOverflowApiKey : Option String)
    (questionTransport : String → String → SOSearchTransport)
    (answerTransport : ℕ → String → SOAnswerTransport) (extractCode : String → String)
    (query language : String) : List RawCandidate :=
  match searchStackOverflowTry stackOverflowApiKey questionTransport answerTransport
      extractCode query language with
  | .ok results => results
  | .error _ => []

/-- One item of the GitHub code-search API response. -/
structure GHApiItem where
  name : String
  path : String
  repositoryFullName : String
  htmlUrl : String
  language : String
deriving DecidableEq, Repr

/-- One mapped result of `githubService.searchCode`. -/
structure GHResult where
  name : String
  path : String
  repository : String
  url : String
  language : String
deriving DecidableEq, Repr

/-- Outcome of the GitHub code-search request (an unauthenticated or
rate-limited request rejects, landing here as a failure). -/
inductive GHTransport where
  | failure (msg : String)
  | ok (items : List GHApiItem)
deriving DecidableEq, Repr

/-- `githubService.searchCode` (lines 189-214): annotate the query with the
language qualifier, issue the search (authenticated with whatever
`GITHUB_TOKEN` the Octokit client was constructed with, possibly absent),
map the items; any failure is caught and yields `[]`.  There is no
credential check in the function itself. -/
def searchCodeService (githubToken : Option String) (transport : Option String → String → GHTransport)
    (query language : String) : List GHResult :=
  let searchQuery := if language ≠ "" then query ++ " language:" ++ language else query
  match transport githubToken searchQuery with
  | .failure _ => []
  | .ok items =>
    items.map fun i => { name := i.name, path := i.path, repository := i.repositoryFullName,
                         url := i.htmlUrl, language := i.language }

/-! ## Spec-side definitions for the aggregation claims -/

/-- The bucket of a `Sources` value for one source kind. -/
def bucketOf (s : Sources) : SourceKind → List SourceAgg
  | .github => s.github
  | .stackoverflow => s.stackoverflow
  | .web => s.web

/-- Modelled from the spec (§3): the `referencingFiles` a `SourceAggregate`
for `(k, l)` is expected to accumulate — here, one filename per match citing
that pair, walking files and matches in order. -/
def referencingFilesSpec (files : List FileResult) (k : SourceKind) (l : String) : List String :=
  files.flatMap fun f =>
    (f.matchList.filter fun m => m.source == k && m.link == l).map fun _ => f.filename

/-- Whether some match of some file cites the pair `(k, l)`. -/
def pairCited (files : List FileResult) (k : SourceKind) (l : String) : Bool :=
  files.any fun f => f.matchList.any fun m => m.source == k && m.link == l

/-- The string key of the pair `(k, l)` in the source map. -/
def keyStr (k : SourceKind) (l : String) : String := k.str ++ "-" ++ l

/-- The `(filename, match)` stream that `aggregateSources` walks, flattened. -/
def matchStream (files : List FileResult) : List (String × Match) :=
  files.flatMap fun f => f.matchList.map fun m => (f.filename, m)

/-- `referencingFilesSpec`, expressed on the flattened stream. -/
def streamFiles (ps : List (String × Match)) (k : SourceKind) (l : String) : List String :=
  (ps.filter fun p => p.2.source == k && p.2.link == l).map Prod.fst

/-- The source map built by folding `aggStep` over a flattened stream. -/
def foldAgg (ps : List (String × Match)) : List (String × SourceAgg) :=
  ps.foldl (fun sm p => aggStep p.1 sm p.2) []

/-- The first character of each source-kind tag (used to separate keys). -/
def kindHeadChar : SourceKind → Char
  | .github => 'g'
  | .stackoverflow => 's'
  | .web => 'w'

/-! ## Composition of the AI-detection model with `analyzeFile`

`analyzeFile` awaits `aiDetectionService.detectAIGeneratedCode`; composing
the two models, the environment's `detectAI` is the (never-throwing)
detection result for the per-file text statistics and model response. -/

/-- The `detectAI` environment entry induced by `detectAIGeneratedCode`,
given each file's abstracted text statistics and model response. -/
def mkDetect (hg : String → String → HeurEnv × GeminiResponse) :
    String → String → Except String AIResult :=
  fun content lang =>
    .ok { aiProbability :=
            (detectAIGeneratedCode (hg content lang).1 (hg content lang).2).aiProbability }

/-! ## Concrete instances used by witnesses and counterexamples -/

/-- A candidate returned by the mocked repository-host search. -/
def rcEx : RawCandidate :=
  { title := "Example answer", link := "https://example.com/q", snippet := "ignored" }

/-- A mocked environment: one snippet, one GitHub candidate, AI opinion 1/2. -/
def envEx : Env :=
  { detectAI := fun _ _ => .ok { aiProbability := 1/2 },
    githubSearch := fun _ _ => .ok [rcEx],
    soSearch := fun _ _ => .ok [],
    webSearch := fun _ _ => .ok [],
    extractSnippets := fun _ => ["function add"] }

/-- The same environment with a failing AI-detection call. -/
def envErr : Env :=
  { envEx with detectAI := fun _ _ => .error "gemini unavailable" }

/-- A submitted file. -/
def fileEx : FileInput :=
  { filename := "a.js", content := "function add", language := "javascript" }

/-- The match `analyzeFile envEx fileEx {}` retains. -/
def mEx : Match :=
  { title := "Example answer", link := "https://example.com/q", source := .github,
    snippet := "function add", similarity := 1, risk := "critical" }

/-- The tagged candidate behind `mEx`. -/
def cEx : TaggedCandidate :=
  { title := "Example answer", link := "https://example.com/q", source := .github,
    snippet := "function add" }

/-- Text statistics that fire none of the pattern or statistical guards. -/
def heurZero : HeurEnv :=
  { commentRatio := 0, formattingScore := 0, genericNamesScore := 0,
    overEngineeringScore := 0, personalStyleScore := 1, statCommentRatio := 0,
    statFunctionDensity := 0, statVariableDensity := 0, statTotalLines := 0,
    statClassCount := 0 }

/-- An environment whose model response is free text whose first matched
number is 300 (`parseFloat("300")/100 = 3`), searches disabled by results. -/
def envFreeText : Env :=
  { detectAI := mkDetect fun _ _ => (heurZero, .unparsed (some 300)),
    githubSearch := fun _ _ => .ok [],
    soSearch := fun _ _ => .ok [],
    webSearch := fun _ _ => .ok [],
    extractSnippets := fun _ => [] }

/-- An environment with a benign JSON model response (probability 1/2). -/
def envHalf : Env :=
  { detectAI := mkDetect fun _ _ => (heurZero, .parsedJson (some (1/2)) none),
    githubSearch := fun _ _ => .ok [],
    soSearch := fun _ _ => .ok [],
    webSearch := fun _ _ => .ok [],
    extractSnippets := fun _ => [] }

/-- A web match citing link `"L"`. -/
def mWeb : Match :=
  { title := "T", link := "L", source := .web, snippet := "s", similarity := 1,
    risk := "critical" }

/-- One file whose matches cite the same `(web, "L")` pair twice. -/
def dupFile : FileResult :=
  { filename := "a.js", language := "javascript", size := 1, plagiarismScore := 1,
    aiGeneratedScore := 0, matchList := [mWeb, mWeb], aiAnalysis := none, error := none }

/-- Two files each citing `(web, "L")` once. -/
def fileA : FileResult :=
  { filename := "a.js", language := "javascript", size := 1, plagiarismScore := 1,
    aiGeneratedScore := 0, matchList := [mWeb], aiAnalysis := none, error := none }

/-- See `fileA`. -/
def fileB : FileResult :=
  { filename := "b.js", language := "javascript", size := 1, plagiarismScore := 1,
    aiGeneratedScore := 0, matchList := [mWeb], aiAnalysis := none, error := none }

/-- The aggregate `aggregateSources [fileA, fileB]` builds for
`(web, "L")`. -/
def aggExact : SourceAgg := aggUpdate "b.js" mWeb (aggUpdate "a.js" mWeb (aggInit mWeb))

/-- A Stack Overflow question with one answer, used by transports below. -/
def soQEx : SOQuestion := { questionId := 1, title := "T", link := "L", answerCount := 1 }

/-- A question transport returning `soQEx` whatever the key. -/
def soQT : String → String → SOSearchTransport := fun _ _ => .ok (some [soQEx])

/-- An answer transport returning one answer whatever the key. -/
def soAT : ℕ → String → SOAnswerTransport := fun _ _ => .ok [{ body := "code", score := 3 }]

/-! ### Similarity bounds -/

theorem bigrams_length (l : List Char) : (bigrams l).length = l.length - 1 := by
  match l with
  | [] => rfl
  | [a] => rfl
  | a :: b :: rest =>
    have ih := bigrams_length (b :: rest)
    simp [bigrams] at ih ⊢
    omega

theorem consumeCount_le_left {α : Type} [DecidableEq α] (l avail : List α) :
    consumeCount l avail ≤ l.length := by
  induction l generalizing avail with
  | nil => simp [consumeCount]
  | cons b rest ih =>
    simp only [consumeCount, List.length_cons]
    split
    · have := ih (avail.erase b)
      omega
    · have := ih avail
      omega

theorem consumeCount_le_right {α : Type} [DecidableEq α] (l avail : List α) :
    consumeCount l avail ≤ avail.length := by
  induction l generalizing avail with
  | nil => simp [consumeCount]
  | cons b rest ih =>
    simp only [consumeCount]
    split
    · next hmem =>
      have h1 := ih (avail.erase b)
      have h2 : (avail.erase b).length = avail.length - 1 := List.length_erase_of_mem hmem
      have h3 : 1 ≤ avail.length := List.length_pos.mpr (by rintro rfl; simp at hmem)
      omega
    · exact ih avail

theorem compareTwoStrings_nonneg (s1 s2 : String) : 0 ≤ compareTwoStrings s1 s2 := by
  unfold compareTwoStrings
  split
  · norm_num
  · split
    · norm_num
    · next h1 h2 =>
      push_neg at h2
      apply div_nonneg
      · positivity
      · have ha : (2 : ℚ) ≤ ((stripWs s1.toList).length : ℚ) := by exact_mod_cast h2.1
        have hb : (2 : ℚ) ≤ ((stripWs s2.toList).length : ℚ) := by exact_mod_cast h2.2
        linarith


theorem compareTwoStrings_le_one (s1 s2 : String) : compareTwoStrings s1 s2 ≤ 1 := by
  unfold compareTwoStrings
  split
  · norm_num
  · split
    · norm_num
    · next h1 h2 =>
      push_neg at h2
      set first := stripWs s1.toList with hf
      set second := stripWs s2.toList with hs
      have ha : 2 ≤ first.length := h2.1
      have hb : 2 ≤ second.length := h2.2
      have hI1 : consumeCount (bigrams second) (bigrams first) ≤ second.length - 1 := by
        have h := consumeCount_le_left (bigrams second) (bigrams first)
        rw [bigrams_length] at h
        exact h
      have hI2 : consumeCount (bigrams second) (bigrams first) ≤ first.length - 1 := by
        have h := consumeCount_le_right (bigrams second) (bigrams first)
        rw [bigrams_length] at h
        exact h
      have hden : (0 : ℚ) < (first.length : ℚ) + (second.length : ℚ) - 2 := by
        have ha' : (2 : ℚ) ≤ (first.length : ℚ) := by exact_mod_cast ha
        have hb' : (2 : ℚ) ≤ (second.length : ℚ) := by exact_mod_cast hb
        linarith
      rw [div_le_one hden]
      have hsum : 2 * consumeCount (bigrams second) (bigrams first) ≤
          first.length + second.length - 2 := by omega
      have hcast : (2 : ℚ) * (consumeCount (bigrams second) (bigrams first) : ℚ) ≤
          ((first.length + second.length - 2 : ℕ) : ℚ) := by exact_mod_cast hsum
      have hc2 : ((first.length + second.length - 2 : ℕ) : ℚ) =
          (first.length : ℚ) + (second.length : ℚ) - 2 := by
        have : 2 ≤ first.length + second.length := by omega
        push_cast [this]
        ring
      linarith [hc2 ▸ hcast]

theorem calculateSimilarity_nonneg (t1 t2 : String) : 0 ≤ calculateSimilarity t1 t2 :=
  compareTwoStrings_nonneg _ _

theorem calculateSimilarity_le_one (t1 t2 : String) : calculateSimilarity t1 t2 ≤ 1 :=
  compareTwoStrings_le_one _ _

theorem calculateSimilarity_self (x : String) : calculateSimilarity x x = 1 := by
  unfold calculateSimilarity compareTwoStrings
  simp

/-! ### Properties of the stable descending sort -/

theorem mem_insertDesc {α : Type} (key : α → ℚ) (x : α) (l : List α) (y : α) :
    y ∈ insertDesc key x l ↔ y = x ∨ y ∈ l := by
  induction l with
  | nil => simp [insertDesc]
  | cons h t ih =>
    simp only [insertDesc]
    split
    · simp only [List.mem_cons, ih]
      tauto
    · simp only [List.mem_cons]

theorem insertDesc_perm {α : Type} (key : α → ℚ) (x : α) (l : List α) :
    List.Perm (insertDesc key x l) (x :: l) := by
  induction l with
  | nil => rfl
  | cons h t ih =>
    simp only [insertDesc]
    split
    · exact (ih.cons h).trans (List.Perm.swap x h t)
    · rfl

theorem sortDesc_perm {α : Type} (key : α → ℚ) (l : List α) :
    List.Perm (sortDesc key l) l := by
  induction l with
  | nil => rfl
  | cons h t ih => exact (insertDesc_perm key h (sortDesc key t)).trans (ih.cons h)

theorem pairwise_ge_insertDesc {α : Type} (key : α → ℚ) (x : α) (l : List α)
    (hl : List.Pairwise (fun a b => key b ≤ key a) l) :
    List.Pairwise (fun a b => key b ≤ key a) (insertDesc key x l) := by
  induction l with
  | nil => simp [insertDesc]
  | cons h t ih =>
    rw [List.pairwise_cons] at hl
    simp only [insertDesc]
    split
    · next hgt =>
      rw [List.pairwise_cons]
      refine ⟨?_, ih hl.2⟩
      intro y hy
      rcases (mem_insertDesc key x t y).mp hy with rfl | hyt
      · exact le_of_lt hgt
      · exact hl.1 y hyt
    · next hle =>
      push_neg at hle
      rw [List.pairwise_cons]
      refine ⟨?_, List.pairwise_cons.mpr hl⟩
      intro y hy
      rcases List.mem_cons.mp hy with rfl | hyt
      · exact hle
      · exact le_trans (hl.1 y hyt) hle

theorem sortDesc_sorted {α : Type} (key : α → ℚ) (l : List α) :
    List.Pairwise (fun a b => key b ≤ key a) (sortDesc key l) := by
  induction l with
  | nil => simp [sortDesc]
  | cons h t ih => exact pairwise_ge_insertDesc key h (sortDesc key t) ih

theorem pairwise_lex_insertDesc {α : Type} (key : α → ℚ) (x : ℕ × α) (l : List (ℕ × α))
    (hl : List.Pairwise (lexAfter key) l) (hx : ∀ y ∈ l, x.1 < y.1) :
    List.Pairwise (lexAfter key) (insertDesc (fun p => key p.2) x l) := by
  induction l with
  | nil => simp [insertDesc]
  | cons h t ih =>
    rw [List.pairwise_cons] at hl
    simp only [insertDesc]
    split
    · next hgt =>
      rw [List.pairwise_cons]
      refine ⟨?_, ih hl.2 (fun y hy => hx y (List.mem_cons_of_mem h hy))⟩
      intro y hy
      rcases (mem_insertDesc (fun p => key p.2) x t y).mp hy with rfl | hyt
      · exact Or.inl hgt
      · exact hl.1 y hyt
    · next hle =>
      push_neg at hle
      rw [List.pairwise_cons]
      constructor
      · intro y hy
        rcases List.mem_cons.mp hy with rfl | hyt
        · rcases lt_or_eq_of_le hle with hlt | heq
          · exact Or.inl hlt
          · exact Or.inr ⟨heq.symm, hx y (List.mem_cons_self y t)⟩
        · have hyh : key y.2 ≤ key h.2 := by
            rcases hl.1 y hyt with hlt | ⟨heq, _⟩
            · exact le_of_lt hlt
            · exact le_of_eq heq.symm
          rcases lt_or_eq_of_le (le_trans hyh hle) with hlt | heq
          · exact Or.inl hlt
          · exact Or.inr ⟨heq.symm, hx y (List.mem_cons_of_mem h hyt)⟩
      · exact List.pairwise_cons.mpr hl

theorem pairwise_lex_sortDesc {α : Type} (key : α → ℚ) (L : List (ℕ × α))
    (hL : List.Pairwise (fun a b => a.1 < b.1) L) :
    List.Pairwise (lexAfter key) (sortDesc (fun p => key p.2) L) := by
  induction L with
  | nil => simp [sortDesc]
  | cons h t ih =>
    rw [List.pairwise_cons] at hL
    refine pairwise_lex_insertDesc key h (sortDesc (fun p => key p.2) t) (ih hL.2) ?_
    intro y hy
    exact hL.1 y ((sortDesc_perm (fun p => key p.2) t).mem_iff.mp hy)

theorem map_snd_insertDesc {α : Type} (key : α → ℚ) (x : ℕ × α) (l : List (ℕ × α)) :
    (insertDesc (fun p => key p.2) x l).map Prod.snd = insertDesc key x.2 (l.map Prod.snd) := by
  induction l with
  | nil => simp [insertDesc]
  | cons h t ih =>
    simp only [insertDesc, List.map_cons]
    split
    · simp [ih]
    · simp

theorem map_snd_sortDesc {α : Type} (key : α → ℚ) (L : List (ℕ × α)) :
    (sortDesc (fun p => key p.2) L).map Prod.snd = sortDesc key (L.map Prod.snd) := by
  induction L with
  | nil => rfl
  | cons h t ih =>
    simp only [sortDesc, List.map_cons]
    rw [map_snd_insertDesc, ih]

/-! ### Structure of `analyzeFile` -/

theorem mem_sourceChunk {enabled : Bool} {res : Except String (List RawCandidate)}
    {src : SourceKind} {snippet : String} {c : TaggedCandidate}
    (hc : c ∈ sourceChunk enabled res src snippet) : c.snippet = snippet := by
  unfold sourceChunk at hc
  split at hc
  · split at hc
    · next ms _ =>
      obtain ⟨r, _, rfl⟩ := List.mem_map.mp hc
      rfl
    · simp at hc
  · simp at hc

theorem collectCandidates_snippet_eq {env : Env} {opts : Options} {lang su : String}
    {c : TaggedCandidate} (hc : c ∈ collectCandidates env opts lang su) : c.snippet = su := by
  unfold collectCandidates at hc
  rcases List.mem_append.mp hc with h | h
  · rcases List.mem_append.mp h with h' | h'
    · exact mem_sourceChunk h'
    · exact mem_sourceChunk h'
  · exact mem_sourceChunk h

theorem mkMatch_some {opts : Options} {su : String} {c : TaggedCandidate} {m : Match}
    (h : mkMatch opts su c = some m) :
    c.snippet ≠ "" ∧ opts.similarityThreshold < calculateSimilarity su c.snippet ∧
    m = { title := c.title, link := c.link, source := c.source, snippet := c.snippet,
          similarity := calculateSimilarity su c.snippet,
          risk := getRiskLevel (calculateSimilarity su c.snippet) } := by
  simp only [mkMatch] at h
  split at h
  · next hne =>
    split at h
    · next hgt =>
      exact ⟨hne, hgt, (Option.some.injEq _ _).mp h.symm⟩
    · simp at h
  · simp at h

theorem mem_allMatches {env : Env} {opts : Options} {lang content : String} {m : Match} :
    m ∈ allMatches env opts lang content ↔
    ∃ su ∈ env.extractSnippets content, ∃ c ∈ collectCandidates env opts lang su,
      mkMatch opts su c = some m := by
  unfold allMatches scoreCandidates
  simp [List.mem_flatMap, List.mem_filterMap]

theorem analyzeFileOk_matchList (env : Env) (file : FileInput) (opts : Options) (ai : AIResult) :
    (analyzeFileOk env file opts ai).matchList =
      sortDesc (fun m => m.similarity) (allMatches env opts file.language file.content) := by
  simp only [analyzeFileOk]
  split <;> split <;> rfl

theorem analyzeFileOk_error (env : Env) (file : FileInput) (opts : Options) (ai : AIResult) :
    (analyzeFileOk env file opts ai).error = none := by
  simp only [analyzeFileOk]
  split <;> split <;> rfl

theorem analyzeFileOk_aiScore (env : Env) (file : FileInput) (opts : Options) (ai : AIResult) :
    (analyzeFileOk env file opts ai).aiGeneratedScore =
      if opts.detectAI then ai.aiProbability else 0 := by
  simp only [analyzeFileOk]
  split <;> split <;> rfl

theorem analyzeFileOk_plagiarism (env : Env) (file : FileInput) (opts : Options) (ai : AIResult) :
    (analyzeFileOk env file opts ai).plagiarismScore =
      if (analyzeFileOk env file opts ai).matchList.length > 0 then
        maxSimilarity (analyzeFileOk env file opts ai).matchList * (7/10) +
          (sumSimilarity (analyzeFileOk env file opts ai).matchList /
            ((analyzeFileOk env file opts ai).matchList.length : ℚ)) * (3/10)
      else 0 := by
  rw [analyzeFileOk_matchList]
  simp only [analyzeFileOk]
  split <;> split <;> rfl

theorem analyzeFile_cases (env : Env) (file : FileInput) (opts : Options) :
    (∃ e, (if opts.detectAI then env.detectAI file.content file.language
           else .ok { aiProbability := 0 }) = .error e ∧
       analyzeFile env file opts = { initResult file with error := some e }) ∨
    (∃ ai, (if opts.detectAI then env.detectAI file.content file.language
            else .ok { aiProbability := 0 }) = .ok ai ∧
       analyzeFile env file opts = analyzeFileOk env file opts ai) := by
  unfold analyzeFile
  cases h : (if opts.detectAI then env.detectAI file.content file.language
             else .ok { aiProbability := 0 }) with
  | error e => exact Or.inl ⟨e, rfl, rfl⟩
  | ok ai => exact Or.inr ⟨ai, rfl, rfl⟩

theorem analyzeFile_matchList_of_ok (env : Env) (file : FileInput) (opts : Options)
    (h : (analyzeFile env file opts).error = none) :
    (analyzeFile env file opts).matchList =
      sortDesc (fun m => m.similarity) (allMatches env opts file.language file.content) := by
  rcases analyzeFile_cases env file opts with ⟨e, _, heq⟩ | ⟨ai, _, heq⟩
  · rw [heq] at h
    simp at h
  · rw [heq, analyzeFileOk_matchList]

theorem matchList_sound {env : Env} {file : FileInput} {opts : Options} {m : Match}
    (hm : m ∈ (analyzeFile env file opts).matchList) :
    ∃ su ∈ env.extractSnippets file.content,
      m.snippet = su ∧ su ≠ "" ∧ m.similarity = calculateSimilarity su m.snippet ∧
      opts.similarityThreshold < m.similarity ∧ m.risk = getRiskLevel m.similarity := by
  rcases analyzeFile_cases env file opts with ⟨e, _, heq⟩ | ⟨ai, _, heq⟩
  · rw [heq] at hm
    simp [initResult] at hm
  · rw [heq, analyzeFileOk_matchList] at hm
    have hm' : m ∈ allMatches env opts file.language file.content :=
      (sortDesc_perm (fun m => m.similarity) _).subset hm
    obtain ⟨su, hsu, c, hc, hmk⟩ := mem_allMatches.mp hm'
    obtain ⟨hne, hgt, rfl⟩ := mkMatch_some hmk
    have hcs : c.snippet = su := collectCandidates_snippet_eq hc
    subst hcs
    exact ⟨c.snippet, hsu, rfl, hne, rfl, hgt, rfl⟩

/-! ### AI-detection score bounds -/

theorem analyzeAIPatterns_aiScore_nonneg (h : HeurEnv) : 0 ≤ (analyzeAIPatterns h).aiScore := by
  simp only [analyzeAIPatterns]
  refine le_min ?_ (by norm_num)
  have h1 : (0:ℚ) ≤ (if h.commentRatio > 3/10 then h.commentRatio * (3/10) else 0) := by
    split
    · next hc => nlinarith
    · exact le_refl 0
  have h2 : (0:ℚ) ≤ (if h.formattingScore > 8/10 then h.formattingScore * (2/10) else 0) := by
    split
    · next hc => nlinarith
    · exact le_refl 0
  have h3 : (0:ℚ) ≤ (if h.genericNamesScore > 6/10 then h.genericNamesScore * (25/100) else 0) := by
    split
    · next hc => nlinarith
    · exact le_refl 0
  have h4 : (0:ℚ) ≤
      (if h.overEngineeringScore > 7/10 then h.overEngineeringScore * (3/10) else 0) := by
    split
    · next hc => nlinarith
    · exact le_refl 0
  have h5 : (0:ℚ) ≤
      (if h.personalStyleScore < 3/10 then (1 - h.personalStyleScore) * (2/10) else 0) := by
    split
    · next hc => nlinarith
    · exact le_refl 0
  linarith

theorem analyzeAIPatterns_aiScore_le_one (h : HeurEnv) : (analyzeAIPatterns h).aiScore ≤ 1 := by
  simp only [analyzeAIPatterns]
  exact min_le_right _ _

theorem statisticalAiScore_nonneg (h : HeurEnv) : 0 ≤ statisticalAiScore h := by
  simp only [statisticalAiScore]
  refine le_min ?_ (by norm_num)
  have h1 : (0:ℚ) ≤ (if h.statCommentRatio > 2/10 then (2/10 : ℚ) else 0) := by
    split <;> norm_num
  have h2 : (0:ℚ) ≤ (if h.statFunctionDensity > 5/100 ∧ h.statFunctionDensity < 15/100
      then (2/10 : ℚ) else 0) := by
    split <;> norm_num
  have h3 : (0:ℚ) ≤ (if h.statVariableDensity > 1/10 then (2/10 : ℚ) else 0) := by
    split <;> norm_num
  have h4 : (0:ℚ) ≤ (if h.statTotalLines > 50 then (2/10 : ℚ) else 0) := by
    split <;> norm_num
  have h5 : (0:ℚ) ≤ (if h.statClassCount > 0 then (2/10 : ℚ) else 0) := by
    split <;> norm_num
  linarith

theorem statisticalAiScore_le_one (h : HeurEnv) : statisticalAiScore h ≤ 1 := by
  simp only [statisticalAiScore]
  exact min_le_right _ _

theorem detect_aiProbability_bounds (h : HeurEnv) (g : GeminiResponse)
    (h0 : 0 ≤ openaiProbability g) (h1 : openaiProbability g ≤ 1) :
    0 ≤ (detectAIGeneratedCode h g).aiProbability ∧
      (detectAIGeneratedCode h g).aiProbability ≤ 1 := by
  have hp0 := analyzeAIPatterns_aiScore_nonneg h
  have hp1 := analyzeAIPatterns_aiScore_le_one h
  have hs0 := statisticalAiScore_nonneg h
  have hs1 := statisticalAiScore_le_one h
  have hval : (detectAIGeneratedCode h g).aiProbability =
      (analyzeAIPatterns h).aiScore * (4/10) + openaiProbability g * (4/10) +
        statisticalAiScore h * (2/10) := rfl
  rw [hval]
  constructor <;> nlinarith

/-! ### The submission loop unfolded -/

theorem foldl_analyzeStep_files (env : Env) (opts : Options) (codeFiles : List FileInput)
    (acc : List FileResult × List HighRiskEntry × ℕ) :
    (codeFiles.foldl (analyzeStep env opts) acc).1 =
      acc.1 ++ codeFiles.map fun f => analyzeFile env f opts := by
  induction codeFiles generalizing acc with
  | nil => simp
  | cons f fs ih =>
    rw [List.foldl_cons, ih]
    simp [analyzeStep, List.append_assoc]

theorem analyze_files_eq (env : Env) (opts : Options) (codeFiles : List FileInput) :
    (analyze env opts codeFiles).files = codeFiles.map fun f => analyzeFile env f opts := by
  simp only [analyze]
  rw [foldl_analyzeStep_files]
  simp

theorem analyze_summary_plag (env : Env) (opts : Options) (codeFiles : List FileInput) :
    (analyze env opts codeFiles).summary.plagiarismScore =
      ((analyze env opts codeFiles).files.foldl (fun s f => s + f.plagiarismScore) 0) /
        ((analyze env opts codeFiles).files.length : ℚ) := rfl

theorem analyze_summary_ai (env : Env) (opts : Options) (codeFiles : List FileInput) :
    (analyze env opts codeFiles).summary.aiGeneratedScore =
      ((analyze env opts codeFiles).files.foldl (fun s f => s + f.aiGeneratedScore) 0) /
        ((analyze env opts codeFiles).files.length : ℚ) := rfl

/-! ### Evaluation of the mocked runs -/

theorem envEx_candidates :
    collectCandidates envEx {} "javascript" "function add" = [cEx] := by
  simp [collectCandidates, sourceChunk, envEx, rcEx, tagCandidate, cEx]

theorem envEx_mkMatch : mkMatch {} "function add" cEx = some mEx := by
  norm_num [mkMatch, calculateSimilarity_self, mEx, cEx, getRiskLevel]
  exact fun h => absurd h (by decide)

theorem envEx_allMatches : allMatches envEx {} "javascript" "function add" = [mEx] := by
  unfold allMatches
  have h1 : envEx.extractSnippets "function add" = ["function add"] := rfl
  rw [h1]
  simp only [List.flatMap_cons, List.flatMap_nil, List.append_nil, scoreCandidates,
    envEx_candidates, List.filterMap_cons, List.filterMap_nil, envEx_mkMatch]

theorem envEx_run : analyzeFile envEx fileEx {} =
    analyzeFileOk envEx fileEx {} { aiProbability := 1/2 } := rfl

theorem envEx_error : (analyzeFile envEx fileEx {}).error = none := by
  rw [envEx_run, analyzeFileOk_error]

theorem envEx_matchList : (analyzeFile envEx fileEx {}).matchList = [mEx] := by
  rw [envEx_run, analyzeFileOk_matchList]
  have h1 : fileEx.language = "javascript" := rfl
  have h2 : fileEx.content = "function add" := rfl
  rw [h1, h2, envEx_allMatches]
  rfl

/-! ## Claim theorems -/

/-- **C9**: the SimilarityScorer satisfies `score(x, x) = 1.0` for every
string — in particular every string that is non-empty after normalization —
and `score("", "")` is defined and returns the same consistent value `1`. -/
theorem scorer_self_similarity_one :
    (∀ x : String, calculateSimilarity x x = 1) ∧ calculateSimilarity "" "" = 1 :=
  ⟨calculateSimilarity_self, calculateSimilarity_self ""⟩

/-- **C3** (amended): for every file's text statistics and every model
response, `aiProbability` equals `pattern*0.4 + modelOpinion*0.4 +
statistical*0.2` — with no clamping of the sum; the result lies in `[0,1]`
whenever the model-opinion score does, because the pattern and statistical
components are each capped to `[0,1]` and the weights sum to 1. -/
theorem ai_probability_weighted_sum (h : HeurEnv) (g : GeminiResponse) :
    ((detectAIGeneratedCode h g).aiProbability =
      (analyzeAIPatterns h).aiScore * (4/10) + openaiProbability g * (4/10) +
        statisticalAiScore h * (2/10)) ∧
    (0 ≤ openaiProbability g → openaiProbability g ≤ 1 →
      0 ≤ (detectAIGeneratedCode h g).aiProbability ∧
        (detectAIGeneratedCode h g).aiProbability ≤ 1) :=
  ⟨rfl, fun h0 h1 => detect_aiProbability_bounds h g h0 h1⟩

/-- **C3** counterexample: with no pattern or statistical signal and a model
response whose JSON carries `aiProbability: 5`, the combined `aiProbability`
is `2`, not clamped to `[0,1]` — refuting the claim's clamping clause. -/
theorem ai_probability_exceeds_one :
    (detectAIGeneratedCode heurZero (GeminiResponse.parsedJson (some 5) none)).aiProbability = 2 ∧
    ¬ (detectAIGeneratedCode heurZero
        (GeminiResponse.parsedJson (some 5) none)).aiProbability ≤ 1 := by
  have hv : (detectAIGeneratedCode heurZero
      (GeminiResponse.parsedJson (some 5) none)).aiProbability = 2 := by
    show (analyzeAIPatterns heurZero).aiScore * (4/10) +
      openaiProbability (GeminiResponse.parsedJson (some 5) none) * (4/10) +
      statisticalAiScore heurZero * (2/10) = 2
    simp [analyzeAIPatterns, statisticalAiScore, openaiProbability, heurZero]
    norm_num
  exact ⟨hv, by rw [hv]; norm_num⟩

/-- **C3** witness: a model opinion of 1/2 keeps the result in `[0,1]`. -/
theorem ai_probability_weighted_sum_witness :
    0 ≤ (detectAIGeneratedCode heurZero
          (GeminiResponse.parsedJson (some (1/2)) none)).aiProbability ∧
    (detectAIGeneratedCode heurZero
        (GeminiResponse.parsedJson (some (1/2)) none)).aiProbability ≤ 1 :=
  (ai_probability_weighted_sum heurZero (GeminiResponse.parsedJson (some (1/2)) none)).2
    (by norm_num [openaiProbability]) (by norm_num [openaiProbability])

/-- **C2**: a FileResult's `plagiarismScore` is
`maxSimilarity*0.7 + meanSimilarity*0.3` over the retained matches when any
were retained (so a single retained match yields exactly its similarity),
and exactly `0` when the match list is empty. -/
theorem plagiarism_score_formula (env : Env) (file : FileInput) (opts : Options) :
    ((analyzeFile env file opts).matchList ≠ [] →
      (analyzeFile env file opts).plagiarismScore =
        maxSimilarity (analyzeFile env file opts).matchList * (7/10) +
        (sumSimilarity (analyzeFile env file opts).matchList /
          ((analyzeFile env file opts).matchList.length : ℚ)) * (3/10)) ∧
    ((analyzeFile env file opts).matchList = [] →
      (analyzeFile env file opts).plagiarismScore = 0) ∧
    (∀ m : Match, (analyzeFile env file opts).matchList = [m] →
      (analyzeFile env file opts).plagiarismScore = m.similarity) := by
  rcases analyzeFile_cases env file opts with ⟨e, hcall, heq⟩ | ⟨ai, hcall, heq⟩
  · rw [heq]
    refine ⟨fun hne => absurd rfl hne, fun _ => rfl, fun m hm => ?_⟩
    simp [initResult] at hm
  · rw [heq]
    have hpl := analyzeFileOk_plagiarism env file opts ai
    refine ⟨fun hne => ?_, fun hnil => ?_, fun m hm => ?_⟩
    · rw [hpl, if_pos]
      exact List.length_pos.mpr hne
    · rw [hpl, hnil]
      simp
    · rw [hpl, hm]
      simp [maxSimilarity, sumSimilarity]
      ring

/-- **C2** witness: the mocked single-candidate run retains exactly one
match, and its plagiarism score equals that match's similarity. -/
theorem plagiarism_score_formula_witness :
    (analyzeFile envEx fileEx {}).plagiarismScore = mEx.similarity :=
  (plagiarism_score_formula envEx fileEx {}).2.2 mEx envEx_matchList

/-- **C6**: when the per-file flow fails, the returned FileResult carries the
error with `plagiarismScore` and `aiGeneratedScore` both `0` and no matches;
a failing AI-detection call produces exactly that outcome; and the
submission loop still produces one result per file, each analyzed
independently. -/
theorem file_failure_contained (env : Env) (file : FileInput) (opts : Options) :
    ((analyzeFile env file opts).error ≠ none →
      (analyzeFile env file opts).plagiarismScore = 0 ∧
      (analyzeFile env file opts).aiGeneratedScore = 0 ∧
      (analyzeFile env file opts).matchList = []) ∧
    (∀ e, opts.detectAI = true → env.detectAI file.content file.language = .error e →
      (analyzeFile env file opts).error = some e) ∧
    (∀ codeFiles : List FileInput,
      (analyze env opts codeFiles).files = codeFiles.map fun f => analyzeFile env f opts) := by
  refine ⟨?_, ?_, fun codeFiles => analyze_files_eq env opts codeFiles⟩
  · rcases analyzeFile_cases env file opts with ⟨e, hcall, heq⟩ | ⟨ai, hcall, heq⟩
    · rw [heq]
      exact fun _ => ⟨rfl, rfl, rfl⟩
    · rw [heq, analyzeFileOk_error]
      exact fun hne => absurd rfl hne
  · intro e hd henv
    simp [analyzeFile, hd, henv]

/-- **C6** witness: a run whose AI-detection call throws returns the error
with both scores `0`, and the two-file submission still yields two
results. -/
theorem file_failure_contained_witness :
    (analyzeFile envErr fileEx {}).error = some "gemini unavailable" ∧
    (analyzeFile envErr fileEx {}).plagiarismScore = 0 ∧
    (analyzeFile envErr fileEx {}).aiGeneratedScore = 0 ∧
    (analyze envErr {} [fileEx, fileEx]).files.length = 2 := by
  have h := file_failure_contained envErr fileEx {}
  have he := h.2.1 "gemini unavailable" rfl rfl
  have hc := h.1 (by rw [he]; simp)
  refine ⟨he, hc.1, hc.2.1, ?_⟩
  rw [h.2.2 [fileEx, fileEx]]
  rfl

/-- **C1**: the claim says each candidate's returned snippet text is scored
against its originating unit and that at-or-below-threshold candidates are
discarded.  The per-source map (`reports.js` lines 373-405) instead
overwrites every candidate's `snippet` with the originating unit, so
`calculateSimilarity(snippet, match.snippet)` compares the unit with
itself: in every run, every retained match has similarity exactly `1` and
risk `"critical"`, and the threshold discards nothing.  At the mocked
input, the repository-host candidate's returned snippet text `"ignored"`
has true similarity `0` to the unit `"function add"` — at or below the
default threshold, so the claim mandates discarding it — yet the run
retains it with similarity `1`, risk `"critical"`, and the unit in place of
the candidate's own text. -/
theorem candidate_text_not_scored :
    (∀ (env : Env) (file : FileInput) (opts : Options),
      ∀ m ∈ (analyzeFile env file opts).matchList,
        m.similarity = 1 ∧ m.risk = "critical") ∧
    fileEx.content = "function add" ∧ rcEx.snippet = "ignored" ∧
    calculateSimilarity "function add" "ignored" = 0 ∧
    ({} : Options).similarityThreshold = 3/10 ∧
    (analyzeFile envEx fileEx {}).matchList = [mEx] ∧
    mEx.snippet = "function add" ∧ mEx.similarity = 1 ∧ mEx.risk = "critical" := by
  refine ⟨?_, rfl, rfl, ?_, rfl, envEx_matchList, rfl, rfl, rfl⟩
  · intro env file opts m hm
    obtain ⟨su, _, hsnip, _, hsim, _, hrisk⟩ := matchList_sound hm
    have h1 : m.similarity = 1 := by
      rw [hsim, hsnip, calculateSimilarity_self]
    refine ⟨h1, ?_⟩
    rw [hrisk, h1]
    unfold getRiskLevel
    rw [if_pos (by norm_num)]
  · unfold calculateSimilarity compareTwoStrings
    rw [if_neg (by decide), if_neg (by decide)]
    have hc : consumeCount (bigrams (stripWs (normalizeText "ignored").toList))
        (bigrams (stripWs (normalizeText "function add").toList)) = 0 := by decide
    rw [hc]
    norm_num

/-- **C1** witness: the first conjunct applied at the mocked run. -/
theorem candidate_text_not_scored_witness :
    mEx.similarity = 1 ∧ mEx.risk = "critical" :=
  candidate_text_not_scored.1 envEx fileEx {} mEx
    (envEx_matchList ▸ List.mem_singleton.mpr rfl)

/-- **C8**: the match list of an error-free FileResult is a permutation of
the collected matches, sorted by similarity descending; annotating the
collected matches with their insertion positions, the sorted sequence is
ordered by (similarity descending, insertion index ascending), so ties keep
insertion order and the result is deterministic given the source results. -/
theorem matches_sorted_desc_stable (env : Env) (file : FileInput) (opts : Options)
    (herr : (analyzeFile env file opts).error = none) :
    List.Perm (analyzeFile env file opts).matchList
      (allMatches env opts file.language file.content) ∧
    List.Pairwise (fun a b => b.similarity ≤ a.similarity)
      (analyzeFile env file opts).matchList ∧
    (analyzeFile env file opts).matchList =
      (sortDesc (fun p => p.2.similarity)
        (allMatches env opts file.language file.content).enum).map Prod.snd ∧
    List.Pairwise (lexAfter fun m : Match => m.similarity)
      (sortDesc (fun p => p.2.similarity)
        (allMatches env opts file.language file.content).enum) := by
  rw [analyzeFile_matchList_of_ok env file opts herr]
  refine ⟨sortDesc_perm _ _, sortDesc_sorted _ _, ?_, ?_⟩
  · rw [map_snd_sortDesc, List.enum_map_snd]
  · apply pairwise_lex_sortDesc
    have h1 : List.Pairwise (fun a b : ℕ => a < b)
        ((allMatches env opts file.language file.content).enum.map Prod.fst) := by
      rw [List.enum_map_fst]
      exact List.pairwise_lt_range _
    exact List.pairwise_map.mp h1

/-- **C8** witness: the mocked run's match list is sorted descending. -/
theorem matches_sorted_desc_stable_witness :
    List.Pairwise (fun a b : Match => b.similarity ≤ a.similarity)
      (analyzeFile envEx fileEx {}).matchList :=
  (matches_sorted_desc_stable envEx fileEx {} envEx_error).2.1

/-! ### Soft failure of the evidence sources -/

theorem foldlM_soStep_const_fail (extractCode : String → String) (keyParam msg : String)
    (questions : List SOQuestion) (acc : List RawCandidate) :
    questions.foldlM (soStep (fun _ _ => SOAnswerTransport.failure msg) extractCode keyParam)
        acc = Except.ok acc ∨
    ∃ e, questions.foldlM (soStep (fun _ _ => SOAnswerTransport.failure msg) extractCode
        keyParam) acc = Except.error e := by
  induction questions generalizing acc with
  | nil => exact Or.inl rfl
  | cons q qs ih =>
    rw [List.foldlM_cons]
    by_cases hq : q.answerCount > 0
    · refine Or.inr ⟨msg, ?_⟩
      have hstep : soStep (fun _ _ => SOAnswerTransport.failure msg) extractCode keyParam
          acc q = Except.error msg := by
        simp [soStep, hq]
        rfl
      rw [hstep]
      rfl
    · have hstep : soStep (fun _ _ => SOAnswerTransport.failure msg) extractCode keyParam
          acc q = Except.ok acc := by
        simp [soStep, hq]
        rfl
      rw [hstep]
      exact ih acc

/-- **C7** (amended): each evidence-source search never throws past its
boundary — on a transport/auth/rate-limit failure it returns the empty
sequence, and so does any failing answer follow-up of the Stack Overflow
search; the general-web search additionally returns the empty sequence when
its API key is unconfigured.  (The Stack Overflow and GitHub searches make
no credential check of their own: the request is issued regardless — see
the counterexample.) -/
theorem evidence_sources_soft_fail :
    (∀ transport q l, searchWebService none transport q l = []) ∧
    (∀ key msg q l,
      searchWebService key (fun _ => WebTransport.failure msg) q l = []) ∧
    (∀ key aT ex msg q l,
      searchStackOverflowService key (fun _ _ => SOSearchTransport.failure msg) aT ex q l
        = []) ∧
    (∀ key qT ex msg q l,
      searchStackOverflowService key qT (fun _ _ => SOAnswerTransport.failure msg) ex q l
        = []) ∧
    (∀ tok msg q l,
      searchCodeService tok (fun _ _ => GHTransport.failure msg) q l = []) := by
  refine ⟨fun transport q l => rfl, ?_, fun key aT ex msg q l => ?_, ?_, fun tok msg q l => rfl⟩
  · intro key msg q l
    cases key <;> rfl
  · cases key <;> rfl
  · intro key qT ex msg q l
    simp only [searchStackOverflowService, searchStackOverflowTry]
    cases hq : qT (if l ≠ "" then q ++ " [" ++ l ++ "]" else q) (key.getD "anonymous") with
    | failure e => rfl
    | ok items =>
      cases items with
      | none => rfl
      | some questions =>
        dsimp only
        rcases foldlM_soStep_const_fail ex (key.getD "anonymous") msg questions [] with
          hok | ⟨e, herr⟩
        · rw [hok]
        · rw [herr]

/-- **C7** counterexample: with no API key configured, the Stack Overflow
search still issues the request (with `key: 'anonymous'`) and returns the
candidates it finds — it does not behave as an empty source when
unconfigured. -/
theorem so_unconfigured_returns_candidates :
    searchStackOverflowService none soQT soAT (fun b => b) "query" "" =
      [{ title := "T", link := "L", snippet := "code" }] ∧
    searchStackOverflowService none soQT soAT (fun b => b) "query" "" ≠ [] := by
  have h1 : searchStackOverflowService none soQT soAT (fun b => b) "query" "" =
      [{ title := "T", link := "L", snippet := "code" }] := rfl
  exact ⟨h1, fun h => List.noConfusion (h1 ▸ h)⟩

/-! ### Score bounds -/

theorem matchList_similarity_bounds {env : Env} {file : FileInput} {opts : Options} {m : Match}
    (hm : m ∈ (analyzeFile env file opts).matchList) :
    0 ≤ m.similarity ∧ m.similarity ≤ 1 := by
  obtain ⟨su, _, _, _, hsim, _⟩ := matchList_sound hm
  rw [hsim]
  exact ⟨calculateSimilarity_nonneg _ _, calculateSimilarity_le_one _ _⟩

theorem foldl_max_bounds (l : List Match) (acc : ℚ) (h0 : 0 ≤ acc) (h1 : acc ≤ 1)
    (hb : ∀ m ∈ l, 0 ≤ m.similarity ∧ m.similarity ≤ 1) :
    0 ≤ l.foldl (fun a m => max a m.similarity) acc ∧
      l.foldl (fun a m => max a m.similarity) acc ≤ 1 := by
  induction l generalizing acc with
  | nil => exact ⟨h0, h1⟩
  | cons x xs ih =>
    rw [List.foldl_cons]
    exact ih (max acc x.similarity) (le_max_of_le_left h0)
      (max_le h1 (hb x (List.mem_cons_self x xs)).2)
      fun m hm => hb m (List.mem_cons_of_mem x hm)

theorem maxSimilarity_bounds (ms : List Match)
    (hb : ∀ m ∈ ms, 0 ≤ m.similarity ∧ m.similarity ≤ 1) :
    0 ≤ maxSimilarity ms ∧ maxSimilarity ms ≤ 1 := by
  cases ms with
  | nil => norm_num [maxSimilarity]
  | cons h t =>
    have hh := hb h (List.mem_cons_self h t)
    exact foldl_max_bounds t h.similarity hh.1 hh.2
      fun m hm => hb m (List.mem_cons_of_mem h hm)

theorem foldl_add_key_bounds {α : Type} (key : α → ℚ) (l : List α) (acc : ℚ)
    (hb : ∀ x ∈ l, 0 ≤ key x ∧ key x ≤ 1) :
    acc ≤ l.foldl (fun s x => s + key x) acc ∧
      l.foldl (fun s x => s + key x) acc ≤ acc + l.length := by
  induction l generalizing acc with
  | nil => simp
  | cons x xs ih =>
    rw [List.foldl_cons]
    have hx := hb x (List.mem_cons_self x xs)
    have h2 := ih (acc + key x) fun m hm => hb m (List.mem_cons_of_mem x hm)
    constructor
    · linarith [h2.1]
    · have h3 := h2.2
      have hlen : ((x :: xs).length : ℚ) = (xs.length : ℚ) + 1 := by
        push_cast [List.length_cons]
        ring
      rw [hlen]
      linarith

theorem sumSimilarity_bounds (ms : List Match)
    (hb : ∀ m ∈ ms, 0 ≤ m.similarity ∧ m.similarity ≤ 1) :
    0 ≤ sumSimilarity ms ∧ sumSimilarity ms ≤ ms.length := by
  have h := foldl_add_key_bounds Match.similarity ms 0 hb
  unfold sumSimilarity
  constructor
  · exact h.1
  · linarith [h.2]

theorem analyzeFile_plagiarism_bounds (env : Env) (file : FileInput) (opts : Options) :
    0 ≤ (analyzeFile env file opts).plagiarismScore ∧
      (analyzeFile env file opts).plagiarismScore ≤ 1 := by
  have hb : ∀ m ∈ (analyzeFile env file opts).matchList,
      0 ≤ m.similarity ∧ m.similarity ≤ 1 := fun m hm => matchList_similarity_bounds hm
  rcases analyzeFile_cases env file opts with ⟨e, _, heq⟩ | ⟨ai, _, heq⟩
  · rw [heq]
    norm_num [initResult]
  · rw [heq] at hb ⊢
    rw [analyzeFileOk_plagiarism]
    split
    · next hlen =>
      have hmax := maxSimilarity_bounds _ hb
      have hsum := sumSimilarity_bounds _ hb
      have hlen' : (0:ℚ) < ((analyzeFileOk env file opts ai).matchList.length : ℚ) := by
        exact_mod_cast hlen
      have hmean0 : 0 ≤ sumSimilarity (analyzeFileOk env file opts ai).matchList /
          ((analyzeFileOk env file opts ai).matchList.length : ℚ) :=
        div_nonneg hsum.1 (le_of_lt hlen')
      have hmean1 : sumSimilarity (analyzeFileOk env file opts ai).matchList /
          ((analyzeFileOk env file opts ai).matchList.length : ℚ) ≤ 1 := by
        rw [div_le_one hlen']
        exact hsum.2
      constructor <;> nlinarith [hmax.1, hmax.2]
    · norm_num

theorem analyzeFile_ai_bounds (hg : String → String → HeurEnv × GeminiResponse)
    (env : Env) (hdet : env.detectAI = mkDetect hg) (file : FileInput) (opts : Options)
    (hyp : ∀ content lang, 0 ≤ openaiProbability (hg content lang).2 ∧
      openaiProbability (hg content lang).2 ≤ 1) :
    0 ≤ (analyzeFile env file opts).aiGeneratedScore ∧
      (analyzeFile env file opts).aiGeneratedScore ≤ 1 := by
  rcases analyzeFile_cases env file opts with ⟨e, hcall, heq⟩ | ⟨ai, hcall, heq⟩
  · rw [heq]
    norm_num [initResult]
  · rw [heq, analyzeFileOk_aiScore]
    split
    · next hd =>
      rw [if_pos hd, hdet] at hcall
      simp only [mkDetect, Except.ok.injEq] at hcall
      rw [← hcall]
      exact detect_aiProbability_bounds _ _ (hyp file.content file.language).1
        (hyp file.content file.language).2
    · norm_num

/-- **C4** (amended): every retained match's similarity and every
`plagiarismScore` (per file and in the summary) lies in `[0,1]`; each
`aiGeneratedScore` (per file and in the summary) lies in `[0,1]` whenever
the model-opinion score lies in `[0,1]` — but the model-opinion parse paths
perform no clamping, so a parse result above 1 propagates (see the
counterexample). -/
theorem submission_scores_bounded (hg : String → String → HeurEnv × GeminiResponse)
    (env : Env) (hdet : env.detectAI = mkDetect hg) (opts : Options)
    (codeFiles : List FileInput) (hne : codeFiles ≠ []) :
    (∀ fr ∈ (analyze env opts codeFiles).files,
      (∀ m ∈ fr.matchList, 0 ≤ m.similarity ∧ m.similarity ≤ 1) ∧
      0 ≤ fr.plagiarismScore ∧ fr.plagiarismScore ≤ 1) ∧
    (0 ≤ (analyze env opts codeFiles).summary.plagiarismScore ∧
      (analyze env opts codeFiles).summary.plagiarismScore ≤ 1) ∧
    ((∀ content lang, 0 ≤ openaiProbability (hg content lang).2 ∧
        openaiProbability (hg content lang).2 ≤ 1) →
      (∀ fr ∈ (analyze env opts codeFiles).files,
        0 ≤ fr.aiGeneratedScore ∧ fr.aiGeneratedScore ≤ 1) ∧
      (0 ≤ (analyze env opts codeFiles).summary.aiGeneratedScore ∧
        (analyze env opts codeFiles).summary.aiGeneratedScore ≤ 1)) := by
  have hfiles := analyze_files_eq env opts codeFiles
  have hmem : ∀ fr ∈ (analyze env opts codeFiles).files,
      ∃ f, fr = analyzeFile env f opts := by
    intro fr hfr
    rw [hfiles] at hfr
    obtain ⟨f, _, hf⟩ := List.mem_map.mp hfr
    exact ⟨f, hf.symm⟩
  have hlenpos : (0:ℚ) < ((analyze env opts codeFiles).files.length : ℚ) := by
    rw [hfiles, List.length_map]
    have : codeFiles.length ≠ 0 := fun h => hne (List.length_eq_zero.mp h)
    exact_mod_cast Nat.pos_of_ne_zero this
  have hplag : ∀ fr ∈ (analyze env opts codeFiles).files,
      0 ≤ fr.plagiarismScore ∧ fr.plagiarismScore ≤ 1 := by
    intro fr hfr
    obtain ⟨f, rfl⟩ := hmem fr hfr
    exact analyzeFile_plagiarism_bounds env f opts
  refine ⟨?_, ?_, ?_⟩
  · intro fr hfr
    obtain ⟨f, rfl⟩ := hmem fr hfr
    exact ⟨fun m hm => matchList_similarity_bounds hm,
      analyzeFile_plagiarism_bounds env f opts⟩
  · rw [analyze_summary_plag]
    have hfold := foldl_add_key_bounds FileResult.plagiarismScore
      (analyze env opts codeFiles).files 0 hplag
    constructor
    · exact div_nonneg (by linarith [hfold.1]) (le_of_lt hlenpos)
    · rw [div_le_one hlenpos]
      linarith [hfold.2]
  · intro hyp
    have hai : ∀ fr ∈ (analyze env opts codeFiles).files,
        0 ≤ fr.aiGeneratedScore ∧ fr.aiGeneratedScore ≤ 1 := by
      intro fr hfr
      obtain ⟨f, rfl⟩ := hmem fr hfr
      exact analyzeFile_ai_bounds hg env hdet f opts hyp
    refine ⟨hai, ?_⟩
    rw [analyze_summary_ai]
    have hfold := foldl_add_key_bounds FileResult.aiGeneratedScore
      (analyze env opts codeFiles).files 0 hai
    constructor
    · exact div_nonneg (by linarith [hfold.1]) (le_of_lt hlenpos)
    · rw [div_le_one hlenpos]
      linarith [hfold.2]

/-- **C4** counterexample: a free-text model response whose first matched
number is 300 parses to probability 3; with no other signal the file's
`aiGeneratedScore` becomes 1.2, outside `[0,1]`. -/
theorem ai_generated_score_exceeds_one :
    (analyzeFile envFreeText fileEx {}).aiGeneratedScore = 6/5 ∧
    ¬ (analyzeFile envFreeText fileEx {}).aiGeneratedScore ≤ 1 := by
  have hrun : analyzeFile envFreeText fileEx {} =
      analyzeFileOk envFreeText fileEx {}
        { aiProbability :=
            (detectAIGeneratedCode heurZero (GeminiResponse.unparsed (some 300))).aiProbability } :=
    rfl
  have hval : (analyzeFile envFreeText fileEx {}).aiGeneratedScore =
      (detectAIGeneratedCode heurZero (GeminiResponse.unparsed (some 300))).aiProbability := by
    rw [hrun, analyzeFileOk_aiScore]
    rfl
  have hnum : (detectAIGeneratedCode heurZero
      (GeminiResponse.unparsed (some 300))).aiProbability = 6/5 := by
    show (analyzeAIPatterns heurZero).aiScore * (4/10) +
      openaiProbability (GeminiResponse.unparsed (some 300)) * (4/10) +
      statisticalAiScore heurZero * (2/10) = 6/5
    simp [analyzeAIPatterns, statisticalAiScore, openaiProbability, heurZero]
    norm_num
  rw [hval, hnum]
  norm_num

/-- **C4** witness: a benign model opinion of 1/2 keeps every summary score
of a one-file submission inside `[0,1]`. -/
theorem submission_scores_bounded_witness :
    (0 ≤ (analyze envHalf {} [fileEx]).summary.plagiarismScore ∧
      (analyze envHalf {} [fileEx]).summary.plagiarismScore ≤ 1) ∧
    (0 ≤ (analyze envHalf {} [fileEx]).summary.aiGeneratedScore ∧
      (analyze envHalf {} [fileEx]).summary.aiGeneratedScore ≤ 1) := by
  have h := submission_scores_bounded
    (fun _ _ => (heurZero, GeminiResponse.parsedJson (some (1/2)) none))
    envHalf rfl {} [fileEx] (by simp)
  exact ⟨h.2.1, (h.2.2 fun _ _ =>
    ⟨by norm_num [openaiProbability], by norm_num [openaiProbability]⟩).2⟩

/-! ### Keys of the source map -/

theorem aggKey_eq (m : Match) : aggKey m = keyStr m.source m.link := rfl

theorem keyStr_head (k : SourceKind) (l : String) :
    (keyStr k l).data.head? = some (kindHeadChar k) := by
  cases k <;> rfl

theorem keyStr_inj {k1 k2 : SourceKind} {l1 l2 : String}
    (h : keyStr k1 l1 = keyStr k2 l2) : k1 = k2 ∧ l1 = l2 := by
  have hk : k1 = k2 := by
    have hh := congrArg (fun s => s.data.head?) h
    simp only [keyStr_head, Option.some.injEq] at hh
    cases k1 <;> cases k2 <;> first
      | rfl
      | exact absurd hh (by decide)
  subst hk
  refine ⟨rfl, ?_⟩
  have hd := congrArg String.data h
  simp only [keyStr, String.data_append] at hd
  exact String.ext (List.append_cancel_left hd)

/-! ### The association-list map -/

theorem mapGet_eq_none_iff (sm : List (String × SourceAgg)) (k : String) :
    mapGet sm k = none ↔ ∀ p ∈ sm, p.1 ≠ k := by
  induction sm with
  | nil => simp [mapGet]
  | cons p rest ih =>
    simp only [mapGet, List.mem_cons]
    split
    · next hp =>
      constructor
      · intro h
        exact absurd h (by simp)
      · intro h
        exact absurd hp (h p (Or.inl rfl))
    · next hp =>
      rw [ih]
      constructor
      · intro h q hq
        rcases hq with rfl | hq
        · exact hp
        · exact h q hq
      · intro h q hq
        exact h q (Or.inr hq)

theorem mapGet_append_single (sm : List (String × SourceAgg)) (e : String × SourceAgg)
    (k : String) :
    mapGet (sm ++ [e]) k = match mapGet sm k with
      | some v => some v
      | none => if e.1 = k then some e.2 else none := by
  induction sm with
  | nil => simp [mapGet]
  | cons p rest ih =>
    simp only [List.cons_append, mapGet]
    split
    · rfl
    · exact ih

theorem mapUpdate_keys (sm : List (String × SourceAgg)) (k : String) (f : SourceAgg → SourceAgg) :
    (mapUpdate sm k f).map Prod.fst = sm.map Prod.fst := by
  induction sm with
  | nil => rfl
  | cons p rest ih =>
    simp only [mapUpdate, List.map_cons] at ih ⊢
    split
    · next hp =>
      rw [ih]
    · rw [ih]

theorem mapGet_mapUpdate (sm : List (String × SourceAgg)) (k k' : String)
    (f : SourceAgg → SourceAgg) :
    mapGet (mapUpdate sm k f) k' =
      if k' = k then (mapGet sm k').map f else mapGet sm k' := by
  induction sm with
  | nil => simp [mapGet, mapUpdate]
  | cons p rest ih =>
    simp only [mapUpdate, List.map_cons] at ih ⊢
    by_cases h2 : k' = k
    · subst h2
      by_cases h1 : p.1 = k'
      · simp [mapGet, h1, ih]
      · simp [mapGet, h1, ih]
    · by_cases h1 : p.1 = k
      · have hp : ¬ p.1 = k' := fun hc => h2 (hc ▸ h1)
        simp [mapGet, h1, hp, ih, h2, show ¬ k = k' from fun hc => h2 hc.symm]
      · by_cases hp : p.1 = k'
        · simp [mapGet, h1, hp, ih, h2]
        · simp [mapGet, h1, hp, ih, h2]

theorem mem_mapUpdate {sm : List (String × SourceAgg)} {k : String} {f : SourceAgg → SourceAgg}
    {q : String × SourceAgg} (hq : q ∈ mapUpdate sm k f) :
    ∃ p ∈ sm, q = if p.1 = k then (p.1, f p.2) else p := by
  obtain ⟨p, hp, hpq⟩ := List.mem_map.mp hq
  exact ⟨p, hp, hpq.symm⟩

theorem mapGet_of_mem {sm : List (String × SourceAgg)} {p : String × SourceAgg}
    (hnd : (sm.map Prod.fst).Nodup) (hp : p ∈ sm) : mapGet sm p.1 = some p.2 := by
  induction sm with
  | nil => simp at hp
  | cons q rest ih =>
    rw [List.map_cons, List.nodup_cons] at hnd
    rcases List.mem_cons.mp hp with rfl | hp'
    · simp [mapGet]
    · have hq : ¬ q.1 = p.1 := by
        intro hqq
        exact hnd.1 (hqq ▸ List.mem_map_of_mem Prod.fst hp')
      simp only [mapGet, hq, if_false]
      exact ih hnd.2 hp'

theorem filter_key_length (sm : List (String × SourceAgg)) (k : String)
    (hnd : (sm.map Prod.fst).Nodup) :
    (sm.filter fun p => p.1 == k).length = if (mapGet sm k).isSome then 1 else 0 := by
  induction sm with
  | nil => simp [mapGet]
  | cons p rest ih =>
    rw [List.map_cons, List.nodup_cons] at hnd
    by_cases hp : p.1 = k
    · have hrest : rest.filter (fun p => p.1 == k) = [] := by
        rw [List.filter_eq_nil_iff]
        intro q hq
        simp only [beq_iff_eq]
        intro hqk
        exact hnd.1 (by rw [hp, ← hqk]; exact List.mem_map_of_mem Prod.fst hq)
      simp [List.filter_cons, hp, mapGet, hrest]
    · simp [List.filter_cons, hp, mapGet, ih hnd.2]

/-! ### The flattened match stream -/

theorem foldAgg_append (ps : List (String × Match)) (p : String × Match) :
    foldAgg (ps ++ [p]) = aggStep p.1 (foldAgg ps) p.2 := by
  unfold foldAgg
  rw [List.foldl_append]
  rfl

theorem streamFiles_append (ps : List (String × Match)) (p : String × Match)
    (k : SourceKind) (l : String) :
    streamFiles (ps ++ [p]) k l =
      streamFiles ps k l ++ (if p.2.source == k && p.2.link == l then [p.1] else []) := by
  unfold streamFiles
  rw [List.filter_append, List.map_append]
  congr 1
  cases hb : (p.2.source == k && p.2.link == l) <;> simp [List.filter_cons, hb]

theorem stream_pred_iff_key (p : String × Match) (k : SourceKind) (l : String) :
    (p.2.source == k && p.2.link == l) = true ↔ aggKey p.2 = keyStr k l := by
  constructor
  · intro h
    simp only [Bool.and_eq_true, beq_iff_eq] at h
    rw [aggKey_eq, h.1, h.2]
  · intro h
    rw [aggKey_eq] at h
    obtain ⟨hk, hl⟩ := keyStr_inj h
    simp [hk, hl]

theorem foldAgg_invariant (ps : List (String × Match)) :
    (∀ p ∈ foldAgg ps, p.1 = keyStr p.2.source p.2.link) ∧
    ((foldAgg ps).map Prod.fst).Nodup ∧
    (∀ k l, mapGet (foldAgg ps) (keyStr k l) = none ↔ streamFiles ps k l = []) ∧
    (∀ k l v, mapGet (foldAgg ps) (keyStr k l) = some v →
      v.source = k ∧ v.link = l ∧ v.files = streamFiles ps k l) := by
  induction ps using List.reverseRecOn with
  | nil =>
    refine ⟨by simp [foldAgg], by simp [foldAgg], ?_, ?_⟩
    · intro k l
      simp [foldAgg, mapGet, streamFiles]
    · intro k l v h
      simp [foldAgg, mapGet] at h
  | append_singleton ps p ih =>
    obtain ⟨ih1, ih2, ih3, ih4⟩ := ih
    rw [foldAgg_append]
    simp only [aggStep]
    by_cases hpres : (mapGet (foldAgg ps) (aggKey p.2)).isSome
    · rw [if_pos hpres]
      obtain ⟨v0, hv0⟩ := Option.isSome_iff_exists.mp hpres
      refine ⟨?_, ?_, ?_, ?_⟩
      · intro q hq
        obtain ⟨p', hp', hq'⟩ := mem_mapUpdate hq
        by_cases hc : p'.1 = aggKey p.2
        · rw [if_pos hc] at hq'
          subst hq'
          simpa [aggUpdate] using ih1 p' hp'
        · rw [if_neg hc] at hq'
          rw [hq']
          exact ih1 p' hp'
      · rw [mapUpdate_keys]
        exact ih2
      · intro k l
        rw [mapGet_mapUpdate, streamFiles_append]
        by_cases hkl : keyStr k l = aggKey p.2
        · rw [if_pos hkl, hkl, hv0]
          have hpred : (p.2.source == k && p.2.link == l) = true :=
            (stream_pred_iff_key p k l).mpr hkl.symm
          rw [hpred]
          simp
        · rw [if_neg hkl]
          have hpred : (p.2.source == k && p.2.link == l) = false := by
            by_contra hc
            rw [Bool.not_eq_false] at hc
            exact hkl ((stream_pred_iff_key p k l).mp hc).symm
          rw [hpred]
          simp only [if_false, Bool.false_eq_true, List.append_nil]
          exact ih3 k l
      · intro k l v hv
        rw [mapGet_mapUpdate] at hv
        rw [streamFiles_append]
        by_cases hkl : keyStr k l = aggKey p.2
        · rw [if_pos hkl, hkl, hv0] at hv
          simp at hv
          have hprev := ih4 k l v0 (by rw [hkl]; exact hv0)
          have hpred : (p.2.source == k && p.2.link == l) = true :=
            (stream_pred_iff_key p k l).mpr hkl.symm
          rw [hpred, ← hv]
          simp only [aggUpdate, if_true]
          exact ⟨hprev.1, hprev.2.1, by rw [hprev.2.2]⟩
        · rw [if_neg hkl] at hv
          have hpred : (p.2.source == k && p.2.link == l) = false := by
            by_contra hc
            rw [Bool.not_eq_false] at hc
            exact hkl ((stream_pred_iff_key p k l).mp hc).symm
          rw [hpred]
          simp only [if_false, Bool.false_eq_true, List.append_nil]
          exact ih4 k l v hv
    · rw [if_neg hpres]
      have hnone : mapGet (foldAgg ps) (aggKey p.2) = none :=
        Option.not_isSome_iff_eq_none.mp hpres
      have hnotmem : ∀ q ∈ foldAgg ps, q.1 ≠ aggKey p.2 :=
        (mapGet_eq_none_iff _ _).mp hnone
      refine ⟨?_, ?_, ?_, ?_⟩
      · intro q hq
        obtain ⟨p', hp', hq'⟩ := mem_mapUpdate hq
        rcases List.mem_append.mp hp' with hmem | hmem
        · rw [if_neg (hnotmem p' hmem)] at hq'
          rw [hq']
          exact ih1 p' hmem
        · have he : p' = (aggKey p.2, aggInit p.2) := List.mem_singleton.mp hmem
          subst he
          rw [if_pos rfl] at hq'
          subst hq'
          simp [aggUpdate, aggInit, aggKey_eq]
      · rw [mapUpdate_keys, List.map_append]
        simp only [List.map_cons, List.map_nil]
        rw [List.nodup_append]
        refine ⟨ih2, List.nodup_singleton _, ?_⟩
        intro a ha hb
        rw [List.mem_singleton] at hb
        subst hb
        obtain ⟨q, hq, hq1⟩ := List.mem_map.mp ha
        exact hnotmem q hq hq1
      · intro k l
        rw [mapGet_mapUpdate, streamFiles_append, mapGet_append_single]
        by_cases hkl : keyStr k l = aggKey p.2
        · rw [if_pos hkl]
          have hnone' : mapGet (foldAgg ps) (keyStr k l) = none := by
            rw [hkl]
            exact hnone
          rw [hnone']
          have hpred : (p.2.source == k && p.2.link == l) = true :=
            (stream_pred_iff_key p k l).mpr hkl.symm
          rw [hpred]
          dsimp only
          rw [if_pos hkl.symm]
          simp
        · rw [if_neg hkl]
          have hpred : (p.2.source == k && p.2.link == l) = false := by
            by_contra hc
            rw [Bool.not_eq_false] at hc
            exact hkl ((stream_pred_iff_key p k l).mp hc).symm
          rw [hpred]
          simp only [if_false, Bool.false_eq_true, List.append_nil]
          cases hprev : mapGet (foldAgg ps) (keyStr k l) with
          | some v =>
            dsimp only
            rw [← ih3 k l, hprev]
          | none =>
            dsimp only
            rw [if_neg (fun hc => hkl hc.symm), ← ih3 k l, hprev]
      · intro k l v hv
        rw [mapGet_mapUpdate, mapGet_append_single] at hv
        rw [streamFiles_append]
        by_cases hkl : keyStr k l = aggKey p.2
        · rw [if_pos hkl] at hv
          have hnone' : mapGet (foldAgg ps) (keyStr k l) = none := by
            rw [hkl]
            exact hnone
          rw [hnone'] at hv
          dsimp only at hv
          rw [if_pos hkl.symm] at hv
          simp at hv
          have hpred : (p.2.source == k && p.2.link == l) = true :=
            (stream_pred_iff_key p k l).mpr hkl.symm
          rw [hpred]
          have hstream : streamFiles ps k l = [] := (ih3 k l).mp hnone'
          obtain ⟨hk, hl⟩ := keyStr_inj (hkl.trans (aggKey_eq p.2))
          rw [hstream, ← hv]
          simp [aggUpdate, aggInit, hk, hl]
        · rw [if_neg hkl] at hv
          have hpred : (p.2.source == k && p.2.link == l) = false := by
            by_contra hc
            rw [Bool.not_eq_false] at hc
            exact hkl ((stream_pred_iff_key p k l).mp hc).symm
          rw [hpred]
          simp only [if_false, Bool.false_eq_true, List.append_nil]
          cases hprev : mapGet (foldAgg ps) (keyStr k l) with
          | some v' =>
            rw [hprev] at hv
            dsimp only at hv
            obtain rfl : v' = v := Option.some.inj hv
            exact ih4 k l v' hprev
          | none =>
            rw [hprev] at hv
            dsimp only at hv
            rw [if_neg (fun hc => hkl hc.symm)] at hv
            exact absurd hv (by simp)

theorem foldl_aggStep_flat (files : List FileResult) (acc : List (String × SourceAgg)) :
    files.foldl (fun sm f => f.matchList.foldl (aggStep f.filename) sm) acc =
      (matchStream files).foldl (fun sm p => aggStep p.1 sm p.2) acc := by
  induction files generalizing acc with
  | nil => rfl
  | cons f fs ih =>
    rw [List.foldl_cons, ih]
    unfold matchStream
    rw [List.flatMap_cons, List.foldl_append, List.foldl_map]

theorem buildSourceMap_eq (files : List FileResult) :
    buildSourceMap files = foldAgg (matchStream files) :=
  foldl_aggStep_flat files []

theorem streamFiles_matchStream (files : List FileResult) (k : SourceKind) (l : String) :
    streamFiles (matchStream files) k l = referencingFilesSpec files k l := by
  unfold streamFiles matchStream referencingFilesSpec
  induction files with
  | nil => rfl
  | cons f fs ih =>
    rw [List.flatMap_cons, List.flatMap_cons, List.filter_append, List.map_append, ih]
    congr 1
    rw [List.filter_map, List.map_map]
    rfl

theorem pairCited_iff (files : List FileResult) (k : SourceKind) (l : String) :
    pairCited files k l = true ↔ referencingFilesSpec files k l ≠ [] := by
  unfold pairCited referencingFilesSpec
  rw [List.any_eq_true]
  constructor
  · rintro ⟨f, hf, hm⟩
    rw [List.any_eq_true] at hm
    obtain ⟨m, hm', hp⟩ := hm
    intro hnil
    rw [List.flatMap_eq_nil_iff] at hnil
    have h1 := hnil f hf
    rw [List.map_eq_nil_iff, List.filter_eq_nil_iff] at h1
    exact h1 m hm' hp
  · intro hne
    by_contra hno
    push_neg at hno
    apply hne
    rw [List.flatMap_eq_nil_iff]
    intro f hf
    rw [List.map_eq_nil_iff, List.filter_eq_nil_iff]
    intro m hm hp
    exact hno f hf (List.any_eq_true.mpr ⟨m, hm, hp⟩)

theorem entries_filter_pair (sm : List (String × SourceAgg))
    (hco : ∀ p ∈ sm, p.1 = keyStr p.2.source p.2.link) (k : SourceKind) (l : String) :
    (sm.map Prod.snd).filter (fun v => v.link == l && v.source == k) =
      (sm.filter fun p => p.1 == keyStr k l).map Prod.snd := by
  induction sm with
  | nil => rfl
  | cons p rest ih =>
    have hp := hco p (List.mem_cons_self p rest)
    have ihr := ih fun q hq => hco q (List.mem_cons_of_mem p hq)
    simp only [List.map_cons, List.filter_cons]
    cases hpred : (p.2.link == l && p.2.source == k) with
    | true =>
      have hkey : (p.1 == keyStr k l) = true := by
        rw [beq_iff_eq, hp]
        simp only [Bool.and_eq_true, beq_iff_eq] at hpred
        rw [hpred.1, hpred.2]
      rw [hkey]
      simp [ihr]
    | false =>
      have hkey : (p.1 == keyStr k l) = false := by
        rw [Bool.eq_false_iff]
        intro hc
        rw [beq_iff_eq, hp] at hc
        obtain ⟨h1, h2⟩ := keyStr_inj hc
        rw [Bool.eq_false_iff] at hpred
        exact hpred (by simp [h1, h2])
      rw [hkey]
      simp [ihr]

theorem aggregateSources_bucket (files : List FileResult) (k : SourceKind) :
    bucketOf (aggregateSources files) k =
      sortDesc (fun s => s.maxSimilarity)
        (((buildSourceMap files).map Prod.snd).filter fun s => s.source == k) := by
  cases k <;> rfl

/-- **C5** (amended): exactly one `SourceAggregate` exists per distinct
`(sourceKind, link)` pair cited by some match (and none for uncited pairs),
and its `referencingFiles` accumulates one filename per citing match,
walking files and matches in order — so the same pair cited by two
different files yields one aggregate listing both filenames, but a file
citing the same link in several matches contributes its filename once per
match, and duplicates are possible (see the counterexample). -/
theorem source_aggregation_characterized (files : List FileResult) :
    (∀ k l, ((bucketOf (aggregateSources files) k).filter fun a => a.link == l).length =
        if pairCited files k l then 1 else 0) ∧
    (∀ k, ∀ a ∈ bucketOf (aggregateSources files) k,
      a.source = k ∧ a.files = referencingFilesSpec files k a.link) := by
  obtain ⟨inv1, inv2, inv3, inv4⟩ := foldAgg_invariant (matchStream files)
  rw [← buildSourceMap_eq] at inv1 inv2 inv3 inv4
  constructor
  · intro k l
    rw [aggregateSources_bucket]
    have hperm := sortDesc_perm (fun s => s.maxSimilarity)
      (((buildSourceMap files).map Prod.snd).filter fun s => s.source == k)
    rw [(hperm.filter (fun a => a.link == l)).length_eq]
    rw [List.filter_filter]
    rw [entries_filter_pair _ inv1 k l, List.length_map]
    rw [filter_key_length _ _ inv2]
    have hsome : (mapGet (buildSourceMap files) (keyStr k l)).isSome = pairCited files k l := by
      rw [Bool.eq_iff_iff, Option.isSome_iff_ne_none, pairCited_iff,
        ← streamFiles_matchStream]
      constructor
      · intro hne hnil
        exact hne ((inv3 k l).mpr hnil)
      · intro hne hnone
        exact hne ((inv3 k l).mp hnone)
    rw [hsome]
  · intro k a ha
    rw [aggregateSources_bucket] at ha
    have ha' := (sortDesc_perm (fun s : SourceAgg => s.maxSimilarity) _).subset ha
    rw [List.mem_filter] at ha'
    obtain ⟨hmem, hsrc⟩ := ha'
    obtain ⟨pr, hpr, hpr2⟩ := List.mem_map.mp hmem
    subst hpr2
    have hkey := inv1 pr hpr
    have hget : mapGet (buildSourceMap files) pr.1 = some pr.2 := mapGet_of_mem inv2 hpr
    rw [hkey] at hget
    have hinv := inv4 pr.2.source pr.2.link pr.2 hget
    have hsk : pr.2.source = k := by simpa using hsrc
    refine ⟨hsk, ?_⟩
    rw [streamFiles_matchStream] at hinv
    rw [← hsk]
    exact hinv.2.2

/-- **C5** counterexample: one file citing the same `(web, "L")` pair with
two matches yields a single aggregate whose `referencingFiles` holds the
filename twice — the accumulation is per match, not duplicate-free. -/
theorem referencing_files_duplicated :
    (aggregateSources [dupFile]).web.map SourceAgg.files = [["a.js", "a.js"]] ∧
    ¬ (∀ a ∈ (aggregateSources [dupFile]).web, a.files.Nodup) := by
  have h1 : (aggregateSources [dupFile]).web.map SourceAgg.files = [["a.js", "a.js"]] := rfl
  refine ⟨h1, fun hall => ?_⟩
  cases hw : (aggregateSources [dupFile]).web with
  | nil =>
    rw [hw] at h1
    exact List.noConfusion h1
  | cons a t =>
    rw [hw] at h1
    simp only [List.map_cons, List.cons.injEq] at h1
    have hnd := hall a (by rw [hw]; exact List.mem_cons_self a t)
    rw [h1.1] at hnd
    exact absurd hnd (by decide)

/-- **C5** witness: the same `(web, "L")` pair cited once each by two
different files yields one aggregate whose `referencingFiles` is exactly the
two citing filenames. -/
theorem source_aggregation_characterized_witness :
    aggExact.files = referencingFilesSpec [fileA, fileB] SourceKind.web aggExact.link ∧
    referencingFilesSpec [fileA, fileB] SourceKind.web "L" = ["a.js", "b.js"] := by
  have hmem : aggExact ∈ bucketOf (aggregateSources [fileA, fileB]) SourceKind.web := by
    rw [show bucketOf (aggregateSources [fileA, fileB]) SourceKind.web = [aggExact] from rfl]
    exact List.mem_singleton.mpr rfl
  have h := (source_aggregation_characterized [fileA, fileB]).2 SourceKind.web aggExact hmem
  exact ⟨h.2, rfl⟩

end CodeGuard
